import Mathlib

/-!
Verification of the codex-mcp-wrapper aggregating MCP proxy.

The development shallowly embeds the three TypeScript sources
(`src/index.ts`, `src/jsonrpc.ts`, `src/schemaFixes.ts`) into Lean:
JSON values become an inductive tree, in-place object mutation becomes
functional update of that tree (JavaScript object insertion order is kept by
representing objects as ordered association lists), and the stdio side
effects of the aggregator become an explicit effect list.  All definitions
are executable and are translated from the source files; comments note the
few places where a JavaScript runtime detail (property ghosts on arrays,
`WeakSet` cycle guards on freshly deep-cloned trees) is invisible at the
JSON level and therefore dropped.
-/

namespace Mcp

/-- JSON values.  Numbers are modelled as integers (no claim depends on
fractional values).  Objects are ordered association lists, mirroring the
insertion order of JavaScript objects that `JSON.stringify` serializes. -/
inductive Json where
  | null : Json
  | bool : Bool → Json
  | num : Int → Json
  | str : String → Json
  | arr : List Json → Json
  | obj : List (String × Json) → Json

mutual

/-- Boolean equality on `Json` (structural). -/
def Json.beq : Json → Json → Bool
  | .null, .null => true
  | .bool a, .bool b => a = b
  | .num a, .num b => a = b
  | .str a, .str b => a = b
  | .arr a, .arr b => Json.beqList a b
  | .obj a, .obj b => Json.beqFields a b
  | _, _ => false

def Json.beqList : List Json → List Json → Bool
  | [], [] => true
  | x :: xs, y :: ys => Json.beq x y && Json.beqList xs ys
  | _, _ => false

def Json.beqFields : List (String × Json) → List (String × Json) → Bool
  | [], [] => true
  | (k, v) :: xs, (k2, v2) :: ys => k = k2 && Json.beq v v2 && Json.beqFields xs ys
  | _, _ => false

end

mutual

theorem Json.beq_refl : ∀ a : Json, Json.beq a a = true
  | .null => rfl
  | .bool a => by simp [Json.beq]
  | .num a => by simp [Json.beq]
  | .str a => by simp [Json.beq]
  | .arr a => by simpa [Json.beq] using Json.beqList_refl a
  | .obj a => by simpa [Json.beq] using Json.beqFields_refl a

theorem Json.beqList_refl : ∀ xs : List Json, Json.beqList xs xs = true
  | [] => rfl
  | x :: xs => by simp [Json.beqList, Json.beq_refl x, Json.beqList_refl xs]

theorem Json.beqFields_refl : ∀ fs : List (String × Json), Json.beqFields fs fs = true
  | [] => rfl
  | (k, v) :: fs => by simp [Json.beqFields, Json.beq_refl v, Json.beqFields_refl fs]

end

mutual

theorem Json.beq_sound : ∀ a b : Json, Json.beq a b = true → a = b
  | .null, .null, _ => rfl
  | .bool a, .bool b, h => by simpa [Json.beq] using h
  | .num a, .num b, h => by simp [Json.beq] at h; simp [h]
  | .str a, .str b, h => by simp [Json.beq] at h; simp [h]
  | .arr a, .arr b, h => by
      simp [Json.beq] at h
      exact congrArg Json.arr (Json.beqList_sound a b h)
  | .obj a, .obj b, h => by
      simp [Json.beq] at h
      exact congrArg Json.obj (Json.beqFields_sound a b h)
  | .null, .bool _, h => by simp [Json.beq] at h
  | .null, .num _, h => by simp [Json.beq] at h
  | .null, .str _, h => by simp [Json.beq] at h
  | .null, .arr _, h => by simp [Json.beq] at h
  | .null, .obj _, h => by simp [Json.beq] at h
  | .bool _, .null, h => by simp [Json.beq] at h
  | .bool _, .num _, h => by simp [Json.beq] at h
  | .bool _, .str _, h => by simp [Json.beq] at h
  | .bool _, .arr _, h => by simp [Json.beq] at h
  | .bool _, .obj _, h => by simp [Json.beq] at h
  | .num _, .null, h => by simp [Json.beq] at h
  | .num _, .bool _, h => by simp [Json.beq] at h
  | .num _, .str _, h => by simp [Json.beq] at h
  | .num _, .arr _, h => by simp [Json.beq] at h
  | .num _, .obj _, h => by simp [Json.beq] at h
  | .str _, .null, h => by simp [Json.beq] at h
  | .str _, .bool _, h => by simp [Json.beq] at h
  | .str _, .num _, h => by simp [Json.beq] at h
  | .str _, .arr _, h => by simp [Json.beq] at h
  | .str _, .obj _, h => by simp [Json.beq] at h
  | .arr _, .null, h => by simp [Json.beq] at h
  | .arr _, .bool _, h => by simp [Json.beq] at h
  | .arr _, .num _, h => by simp [Json.beq] at h
  | .arr _, .str _, h => by simp [Json.beq] at h
  | .arr _, .obj _, h => by simp [Json.beq] at h
  | .obj _, .null, h => by simp [Json.beq] at h
  | .obj _, .bool _, h => by simp [Json.beq] at h
  | .obj _, .num _, h => by simp [Json.beq] at h
  | .obj _, .str _, h => by simp [Json.beq] at h
  | .obj _, .arr _, h => by simp [Json.beq] at h

theorem Json.beqList_sound : ∀ xs ys : List Json, Json.beqList xs ys = true → xs = ys
  | [], [], _ => rfl
  | x :: xs, y :: ys, h => by
      simp [Json.beqList] at h
      rw [Json.beq_sound x y h.1, Json.beqList_sound xs ys h.2]
  | [], _ :: _, h => by simp [Json.beqList] at h
  | _ :: _, [], h => by simp [Json.beqList] at h

theorem Json.beqFields_sound :
    ∀ fs gs : List (String × Json), Json.beqFields fs gs = true → fs = gs
  | [], [], _ => rfl
  | (k, v) :: fs, (k2, v2) :: gs, h => by
      simp [Json.beqFields] at h
      rw [h.1.1, Json.beq_sound v v2 h.1.2, Json.beqFields_sound fs gs h.2]
  | [], _ :: _, h => by simp [Json.beqFields] at h
  | _ :: _, [], h => by simp [Json.beqFields] at h

end

instance : DecidableEq Json := fun a b =>
  decidable_of_iff (Json.beq a b = true)
    ⟨Json.beq_sound a b, fun h => h ▸ Json.beq_refl a⟩

/-- First-match lookup in an ordered field list (JavaScript property read). -/
def jLookup : List (String × Json) → String → Option Json
  | [], _ => none
  | (k, v) :: rest, key => if k = key then some v else jLookup rest key

/-- JavaScript property assignment on an object: updates the first matching
key in place (property order is preserved) or appends the key at the end. -/
def setOrAppend : List (String × Json) → String → Json → List (String × Json)
  | [], key, v => [(key, v)]
  | (k, w) :: rest, key, v =>
      if k = key then (k, v) :: rest else (k, w) :: setOrAppend rest key v

/-- JavaScript `delete obj.key`: removes the (first) matching property. -/
def removeField : List (String × Json) → String → List (String × Json)
  | [], _ => []
  | (k, w) :: rest, key => if k = key then rest else (k, w) :: removeField rest key

/-- Property read `j.key`: `undefined` (here `none`) on anything that is not
an object with that key.  Reads of named properties on primitives and arrays
yield `undefined` in JavaScript for every key used by the sources. -/
def jGetOpt (j : Json) (key : String) : Option Json :=
  match j with
  | .obj fs => jLookup fs key
  | _ => none

/-- Property write `j.key = v` as observable through `JSON.stringify`:
objects are updated; properties assigned onto arrays are real but are not
serialized, so at the JSON level the array is unchanged. -/
def jSet (j : Json) (key : String) (v : Json) : Json :=
  match j with
  | .obj fs => .obj (setOrAppend fs key v)
  | _ => j

/-- `delete j.key` as observable through `JSON.stringify`. -/
def jDelete (j : Json) (key : String) : Json :=
  match j with
  | .obj fs => .obj (removeField fs key)
  | _ => j

/-- JavaScript truthiness of a JSON value. -/
def jTruthy : Json → Bool
  | .null => false
  | .bool b => b
  | .num n => n ≠ 0
  | .str s => s ≠ ""
  | .arr _ => true
  | .obj _ => true

/-- Truthiness of a possibly-absent value (`undefined` is falsy). -/
def oTruthy : Option Json → Bool
  | none => false
  | some v => jTruthy v

/-- JavaScript `x == null` (matches both `null` and `undefined`). -/
def oNullish : Option Json → Bool
  | none => true
  | some .null => true
  | some _ => false

/-- `typeof x === "object"` for a truthy `x`: objects and arrays. -/
def isTypeofObject : Json → Bool
  | .obj _ => true
  | .arr _ => true
  | _ => false

/-- Value of a property that a truthiness guard has just established to be
present (`.null` is never returned on such paths). -/
def jGetOr (j : Json) (key : String) : Json :=
  (jGetOpt j key).getD .null

/-! ## `src/schemaFixes.ts` -/

/-- `inferType` (schemaFixes.ts): heuristic type for a node without a
`type`.  `typeof` of the first `enum` element; note that in JavaScript
`typeof null === "object"`, so a leading `null` infers `"object"`. -/
def inferType (fields : List (String × Json)) : String :=
  match jLookup fields "enum" with
  | some (.arr (e :: _)) =>
      match e with
      | .str _ => "string"
      | .num _ => "number"
      | .bool _ => "boolean"
      | .arr _ => "array"
      | _ => "object"
  | _ =>
      match jLookup fields "properties" with
      | some (.obj _) => "object"
      | some (.arr _) => "object"
      | _ =>
          if oNullish (jLookup fields "items") then "string" else "array"

/-- The `integer -> number` member rewrite used inside a `type` array. -/
def integerToNumber (t : Json) : Json :=
  if t = Json.str "integer" then Json.str "number" else t

/-- The type fix performed by `visit` on an object node, as the value the
`type` property is assigned (`none` when the property is left untouched):
`"integer"` becomes `"number"`; an array gets its `"integer"` members mapped
to `"number"` (an empty array defaults to `"string"`); a nullish `type` is
filled in by `inferType`. -/
def typeFixAction (fields : List (String × Json)) : Option Json :=
  match jLookup fields "type" with
  | some (.str s) => if s = "integer" then some (.str "number") else none
  | some (.arr ts) =>
      let ts2 := ts.map integerToNumber
      some (if ts2.isEmpty then .str "string" else .arr ts2)
  | some .null => some (.str (inferType fields))
  | none => some (.str (inferType fields))
  | some _ => none

/-- Applies the result of `typeFixAction` to the field list. -/
def applyTypeAction (fields : List (String × Json)) : Option Json → List (String × Json)
  | none => fields
  | some v => setOrAppend fields "type" v

/-- Keys whose object entries (or array elements) are visited as schemas:
`properties`, `patternProperties`, `$defs`, `definitions`.  The guard in the
source is truthiness plus `typeof === "object"`, which admits arrays, whose
`Object.entries` are their elements. -/
def containerKey (k : String) : Bool :=
  k = "properties" || k = "patternProperties" || k = "$defs" || k = "definitions"

/-- Keys whose array elements are visited: `anyOf`, `oneOf`, `allOf`. -/
def combinatorKey (k : String) : Bool :=
  k = "anyOf" || k = "oneOf" || k = "allOf"

mutual

/-- The recursive `visit` of `normalizeSchema` (schemaFixes.ts).  The source
mutates `node.type` first and then recurses into the container properties;
the traversal never descends into the `type` member, so computing the type
fix from the original fields and applying it after the traversal yields the
same object, with the same property order (a freshly added `type` is
appended at the end, exactly where the in-place assignment puts it).
Primitives are returned unchanged (early `typeof` return).  A bare array
node receives only a ghost `type` property, which `JSON.stringify` does not
serialize, so at the JSON level it is unchanged and nothing below it is
visited.  The `WeakSet` guard never fires on the freshly deep-cloned tree
the source runs on, because `JSON.parse` produces no shared nodes. -/
def visit : Json → Json
  | .obj fields => .obj (applyTypeAction (visitFields fields) (typeFixAction fields))
  | j => j

/-- One pass over the fields of a visited object node, recursing into the
schema containers exactly as the source does: `properties`-like keys visit
each entry value (or array element), `items` visits each element of an
array or the value itself otherwise, and `anyOf`/`oneOf`/`allOf` visit array
elements only.  All other properties are left unchanged. -/
def visitFields : List (String × Json) → List (String × Json)
  | [] => []
  | (k, v) :: rest =>
      (k,
        if containerKey k then
          match v with
          | .obj fs => .obj (visitVals fs)
          | .arr xs => .arr (visitList xs)
          | w => w
        else if k = "items" then
          match v with
          | .arr xs => .arr (visitList xs)
          | w => visit w
        else if combinatorKey k then
          match v with
          | .arr xs => .arr (visitList xs)
          | w => w
        else v) :: visitFields rest

/-- `Object.entries(container).forEach(([k, v]) => visit(v))`. -/
def visitVals : List (String × Json) → List (String × Json)
  | [] => []
  | (k, v) :: rest => (k, visit v) :: visitVals rest

/-- `array.forEach((x) => visit(x))`. -/
def visitList : List Json → List Json
  | [] => []
  | x :: xs => visit x :: visitList xs

end

/-- `deepClone` (schemaFixes.ts): `JSON.parse(JSON.stringify(v))` on a JSON
tree value round-trips to the same value; primitives are returned as-is. -/
def deepClone (j : Json) : Json := j

/-- `normalizeSchema` (schemaFixes.ts): visit a deep copy of the schema. -/
def normalizeSchema (schema : Json) : Json :=
  visit (deepClone schema)

/-- The per-tool body of the `normalizeToolsListResult` loop
(schemaFixes.ts lines 14-33): alias `input_schema`/`output_schema` to their
camelCase names, migrate a legacy `parameters` field, then replace the
schema fields by their normalized deep copies.  All of this mutates the tool
object in place; this function is the value of that tool object after the
loop body ran.  Non-object tools are skipped (`continue`). -/
def toolFix (t : Json) : Json :=
  if !(jTruthy t && isTypeofObject t) then t
  else
    let t1 :=
      if oTruthy (jGetOpt t "input_schema") && !oTruthy (jGetOpt t "inputSchema") then
        jSet t "inputSchema" (jGetOr t "input_schema")
      else t
    let t2 :=
      if oTruthy (jGetOpt t1 "output_schema") && !oTruthy (jGetOpt t1 "outputSchema") then
        jSet t1 "outputSchema" (jGetOr t1 "output_schema")
      else t1
    let t3 :=
      if oTruthy (jGetOpt t2 "parameters") && !oTruthy (jGetOpt t2 "inputSchema")
          && !oTruthy (jGetOpt t2 "input_schema") then
        jDelete (jSet t2 "inputSchema" (normalizeSchema (jGetOr t2 "parameters"))) "parameters"
      else t2
    let t4 :=
      if oTruthy (jGetOpt t3 "inputSchema") then
        jSet t3 "inputSchema" (normalizeSchema (jGetOr t3 "inputSchema"))
      else t3
    if oTruthy (jGetOpt t4 "outputSchema") then
      jSet t4 "outputSchema" (normalizeSchema (jGetOr t4 "outputSchema"))
    else t4

/-- `normalizeToolsListResult` (schemaFixes.ts): runs `toolFix` over every
element of `result.tools` when that is an array.  The source mutates the
tool objects held in that very array in place and returns the same
`result` reference; this function is therefore simultaneously the return
value and the post-call state of the payload the caller passed in. -/
def normalizeToolsListResult (result : Json) : Json :=
  if !(jTruthy result && isTypeofObject result) then result
  else
    match jGetOpt result "tools" with
    | some (.arr ts) => jSet result "tools" (.arr (ts.map toolFix))
    | _ => result

/-! ## `src/jsonrpc.ts` — the stdio frame decoder

The buffer is a list of characters (the streams are UTF-8; every byte the
claims exercise is ASCII).  The decoder is modelled at frame granularity: it
returns the list of payload strings handed to `JSON.parse`, in order, plus
the leftover buffer.  The `while (true)` loop is driven by fuel; every
`continue` path strictly shortens the buffer by at least one character, so
`length + 1` rounds are never exhausted. -/

/-- ASCII lower-casing (the only characters `toLowerCase` must handle here). -/
def lcChar (c : Char) : Char :=
  if 'A' ≤ c ∧ c ≤ 'Z' then Char.ofNat (c.toNat + 32) else c

/-- Case-insensitive prefix test. -/
def isPrefixOfCI : List Char → List Char → Bool
  | [], _ => true
  | _ :: _, [] => false
  | p :: ps, h :: hs => (lcChar p = lcChar h) && isPrefixOfCI ps hs

/-- `lowered.indexOf(pat)`: first index at which `pat` matches
case-insensitively (lower-casing does not move indices). -/
def findSubCI (pat : List Char) : List Char → Option Nat
  | [] => if isPrefixOfCI pat [] then some 0 else none
  | c :: t =>
      if isPrefixOfCI pat (c :: t) then some 0
      else (findSubCI pat t).map (· + 1)

/-- `buf.indexOf(pat)` (case-sensitive). -/
def findSub (pat : List Char) : List Char → Option Nat
  | [] => if pat.isPrefixOf ([] : List Char) then some 0 else none
  | c :: t =>
      if pat.isPrefixOf (c :: t) then some 0
      else (findSub pat t).map (· + 1)

/-- The bytes of the `Content-Length:` marker searched case-insensitively. -/
def clPattern : List Char := "content-length:".toList

/-- The `\r\n\r\n` header terminator. -/
def crlfcrlf : List Char := "\r\n\r\n".toList

/-- Whitespace for the purposes of `\s` and `String.prototype.trim`
(ASCII subset; the streams involved are ASCII). -/
def isJsWS (c : Char) : Bool :=
  c = ' ' || c = '\t' || c = '\n' || c = '\r' || c = '\x0b' || c = '\x0c'

def digitsToNat (ds : List Char) : Nat :=
  ds.foldl (fun n c => 10 * n + (c.toNat - 48)) 0

/-- `/Content-Length:\s*(\d+)/i.exec(headerRaw)` followed by `parseInt`:
locate the marker, skip whitespace, read a digit run.  (The regex engine
would retry later occurrences of the marker when the first is not followed
by digits; the buffers in question contain a single occurrence.) -/
def extractContentLength (headerRaw : List Char) : Option Nat :=
  match findSubCI clPattern headerRaw with
  | none => none
  | some i =>
      let after := (headerRaw.drop (i + clPattern.length)).dropWhile isJsWS
      let ds := after.takeWhile (fun c => c.isDigit)
      if ds.isEmpty then none else some (digitsToNat ds)

/-- `line.replace(/\r$/, "")`. -/
def stripTrailingCR (l : List Char) : List Char :=
  match l.reverse with
  | c :: t => if c = '\r' then t.reverse else l
  | [] => l

/-- `String.prototype.trim`. -/
def jsTrim (l : List Char) : List Char :=
  ((l.dropWhile isJsWS).reverse.dropWhile isJsWS).reverse

/-- The decode loop of `JsonRpcStdio.onData` (jsonrpc.ts lines 15-70).
If a `Content-Length:` marker exists anywhere in the buffer the frame is
handled as length-prefixed: wait unless a `\r\n\r\n` occurs at or after the
marker, drop the "noise" before the marker, then — exactly as the source
does — reuse the header-end index that was computed on the *unsliced*
buffer both to cut `headerRaw` and to locate the body.  Otherwise one line
up to `\n` is consumed as one JSON value (empty lines skipped).  Returns
the payloads passed to `JSON.parse`, in order, and the leftover buffer. -/
def processBuffer : Nat → List Char → List (List Char) × List Char
  | 0, buf => ([], buf)
  | fuel + 1, buf =>
      match findSubCI clPattern buf with
      | some clIdx =>
          match findSub crlfcrlf buf with
          | none => ([], buf)
          | some headerEnd =>
              if headerEnd < clIdx then ([], buf)
              else
                let b1 := buf.drop clIdx
                let headerRaw := b1.take headerEnd
                match extractContentLength headerRaw with
                | none => processBuffer fuel (b1.drop (headerEnd + 4))
                | some len =>
                    let bodyStart := headerEnd + 4
                    let total := bodyStart + len
                    if b1.length < total then ([], b1)
                    else
                      let body := (b1.drop bodyStart).take len
                      let out := processBuffer fuel (b1.drop total)
                      (body :: out.1, out.2)
      | none =>
          match findSub ['\n'] buf with
          | none => ([], buf)
          | some nl =>
              let line := jsTrim (stripTrailingCR (buf.take nl))
              let out := processBuffer fuel (buf.drop (nl + 1))
              if line.isEmpty then out else (line :: out.1, out.2)

/-- `onData(chunk)`: append the chunk to the buffer and run the loop. -/
def onData (inBuf chunk : List Char) : List (List Char) × List Char :=
  processBuffer ((inBuf ++ chunk).length + 1) (inBuf ++ chunk)

/-- Feeding a sequence of chunks, carrying the leftover buffer between
`data` events; collects all decoded payloads in order. -/
def feedChunks : List (List Char) → List Char → List (List Char) × List Char
  | [], buf => ([], buf)
  | c :: cs, buf =>
      let out := onData buf c
      let rest := feedChunks cs out.2
      (out.1 ++ rest.1, rest.2)

/-- A line-delimited encoding of a value whose `JSON.stringify` text is
`payload` (`encodeFrame` / `JsonRpcStdio.send`). -/
def encodeLine (payload : List Char) : List Char := payload ++ ['\n']

/-- A length-prefixed (LSP-style) encoding of the same value, per the frame
format the decoder accepts. -/
def encodeContentLength (payload : List Char) : List Char :=
  "Content-Length: ".toList ++ (toString payload.length).toList ++ crlfcrlf ++ payload

/-! ## `src/index.ts` — aggregator state, config loader, error normalizer -/

/-- A running child (`ChildClient`): its configured logical name and the
spawned command (`proc.spawnfile`). -/
structure Child where
  name : Option String
  command : String
deriving DecidableEq

/-- `normalizeKey` (index.ts): lower-case, collapse every run of characters
outside `[a-z0-9]` to one underscore, strip leading/trailing underscores,
collapse underscore runs.  The `try/catch` never fires on a string input. -/
def isKeyChar (c : Char) : Bool :=
  ('a' ≤ c && c ≤ 'z') || ('0' ≤ c && c ≤ '9')

/-- Collapse consecutive underscores to a single one. -/
def collapseUnderscores (l : List Char) : List Char :=
  l.foldr (fun c acc => if c = '_' ∧ acc.head? = some '_' then acc else c :: acc) []

def normalizeKey (s : String) : String :=
  let l1 := s.toList.map lcChar
  let l2 := collapseUnderscores (l1.map (fun c => if isKeyChar c then c else '_'))
  let l3 := ((l2.dropWhile (fun c => c = '_')).reverse.dropWhile (fun c => c = '_')).reverse
  String.mk (collapseUnderscores l3)

/-- `path.basename`: the final path segment. -/
def basename (p : String) : String :=
  String.mk ((p.toList.reverse.takeWhile (fun c => c ≠ '/')).reverse)

/-- `getChildKey` (index.ts): the child name when truthy, else the basename
of the spawned command, else `"child"`; normalized. -/
def getChildKey (c : Child) : String :=
  let raw :=
    match c.name with
    | some s => if s ≠ "" then s else (if c.command ≠ "" then basename c.command else "child")
    | none => if c.command ≠ "" then basename c.command else "child"
  normalizeKey raw

/-- A parsed child specification (`ServerSpec`).  The `name` field is kept
as a JSON value: the array and single-object shapes push `sv.name`
unchecked, so it need not be a string. -/
structure ServerSpec where
  name : Option Json
  command : String
  args : Json
  env : Json
deriving DecidableEq

/-- `x ?? d`. -/
def nullishOr (o : Option Json) (d : Json) : Json :=
  match o with
  | none => d
  | some .null => d
  | some v => v

/-- `Object.entries`: fields of an object, or indexed elements of an array
(the maps in shape 1 are only guarded by truthiness plus
`typeof === "object"`, which admits arrays). -/
def entriesOf : Json → List (String × Json)
  | .obj fs => fs
  | .arr xs => xs.enum.map (fun p => (toString p.1, p.2))
  | _ => []

/-- The fields common to every shape: an entry is valid when it is a truthy
object whose `command` is a string; `args` defaults to `[]`, `env` to an
empty object. -/
def entryToSpec (name : Option Json) (sv : Json) : Option ServerSpec :=
  if jTruthy sv && isTypeofObject sv then
    match jGetOpt sv "command" with
    | some (.str c) =>
        some { name, command := c,
               args := nullishOr (jGetOpt sv "args") (.arr []),
               env := nullishOr (jGetOpt sv "env") (.obj []) }
    | _ => none
  else none

/-- `findServersInConfig` (index.ts lines 39-112): non-objects yield no
servers; otherwise all five recognized shapes contribute, in source order,
each skipping entries without a string `command`. -/
def findServersInConfig (cfg : Json) : List ServerSpec :=
  if !(jTruthy cfg && isTypeofObject cfg) then []
  else
    (match jGetOpt cfg "servers" with
     | some m =>
         if jTruthy m && isTypeofObject m then
           (entriesOf m).filterMap (fun p => entryToSpec (some (.str p.1)) p.2)
         else []
     | none => []) ++
    (match jGetOpt cfg "mcp_servers" with
     | some m =>
         if jTruthy m && isTypeofObject m then
           (entriesOf m).filterMap (fun p => entryToSpec (some (.str p.1)) p.2)
         else []
     | none => []) ++
    (match jGetOpt cfg "mcpServers" with
     | some m =>
         if jTruthy m && isTypeofObject m then
           (entriesOf m).filterMap (fun p => entryToSpec (some (.str p.1)) p.2)
         else []
     | none => []) ++
    (match cfg with
     | .arr xs => xs.filterMap (fun sv => entryToSpec (jGetOpt sv "name") sv)
     | _ => []) ++
    (match jGetOpt cfg "command" with
     | some (.str c) =>
         [{ name := jGetOpt cfg "name", command := c,
            args := nullishOr (jGetOpt cfg "args") (.arr []),
            env := nullishOr (jGetOpt cfg "env") (.obj []) }]
     | _ => [])

/-- Shape 1 family, as the claim words it: the valid entries of a
`servers`-style map (a truthy object member under the given key). -/
def mapShapeServers (cfg : Json) (key : String) : List ServerSpec :=
  match jGetOpt cfg key with
  | some m =>
      if jTruthy m && isTypeofObject m then
        (entriesOf m).filterMap (fun p => entryToSpec (some (.str p.1)) p.2)
      else []
  | none => []

/-- Shape 2, as the claim words it: the valid entries of a top-level array. -/
def arrayShapeServers (cfg : Json) : List ServerSpec :=
  match cfg with
  | .arr xs => xs.filterMap (fun sv => entryToSpec (jGetOpt sv "name") sv)
  | _ => []

/-- Shape 3, as the claim words it: a top-level entry with a string
`command`. -/
def singleShapeServers (cfg : Json) : List ServerSpec :=
  match jGetOpt cfg "command" with
  | some (.str c) =>
      [{ name := jGetOpt cfg "name", command := c,
         args := nullishOr (jGetOpt cfg "args") (.arr []),
         env := nullishOr (jGetOpt cfg "env") (.obj []) }]
  | _ => []

mutual

/-- JavaScript `String(x)` on JSON values (array elements join with commas,
`null` elements become empty). -/
def jsToString : Json → String
  | .null => "null"
  | .bool true => "true"
  | .bool false => "false"
  | .num n => toString n
  | .str s => s
  | .arr xs => jsToStringElems xs
  | .obj _ => "[object Object]"

def jsToStringElems : List Json → String
  | [] => ""
  | x :: xs =>
      let s := match x with | .null => "" | y => jsToString y
      match xs with
      | [] => s
      | _ :: _ => s ++ "," ++ jsToStringElems xs

end

/-- `String(x)` where `x` may be `undefined`. -/
def jsToStringU : Option Json → String
  | none => "undefined"
  | some v => jsToString v

/-- The context record handed to `normalizeError`. -/
structure ErrCtx where
  method : Option String
  toolName : Option String
  serverName : Option String
deriving DecidableEq

/-- The ENOENT message of `normalizeError`. -/
def spawnErrMessage : String :=
  "Spawn error (ENOENT): command not found. Check PATH or use \x27npx tsx <path-to-index.ts>\x27."

/-- Assembles the `{code, message, data}` envelope; `data` lists `kind`,
`retryable`, `original` and then the truthy context keys, in the insertion
order of the source (later branches only overwrite `kind`/`retryable`
values in place, which keeps this order). -/
def buildErr (code : Int) (message : String) (kind : String) (retryable : Bool)
    (original : Json) (ctx : ErrCtx) : Json :=
  let data := Json.obj
    ([("kind", Json.str kind), ("retryable", Json.bool retryable), ("original", original)]
      ++ (match ctx.toolName with
          | some t => if t ≠ "" then [("toolName", Json.str t)] else []
          | none => [])
      ++ (match ctx.serverName with
          | some s => if s ≠ "" then [("serverName", Json.str s)] else []
          | none => []))
  Json.obj [("code", Json.num code), ("message", Json.str message), ("data", data)]

/-- `normalizeError` (index.ts lines 272-331). -/
def normalizeError (passthrough : Bool) (raw : Json) (ctx : ErrCtx) : Json :=
  let original :=
    match jGetOpt raw "error" with
    | some e => if jTruthy e then e else raw
    | none => raw
  if passthrough then original
  else
    let code0 : Int :=
      match jGetOpt original "code" with
      | some (.num n) => n
      | _ => -32000
    let message0 : String :=
      match jGetOpt original "message" with
      | some m => if jTruthy m then jsToString m else "Server error"
      | none => "Server error"
    let toolSuffix : String :=
      match ctx.toolName with
      | some t => if t ≠ "" then " for tool \x27" ++ t ++ "\x27" else ""
      | none => ""
    let callSuffix : String :=
      match ctx.toolName with
      | some t => if t ≠ "" then " while calling \x27" ++ t ++ "\x27" else ""
      | none => ""
    let enoent : Bool :=
      match jGetOpt original "code" with
      | some (.str s) => s ≠ "" && s = "ENOENT"
      | _ => false
    if enoent then buildErr (-32001) spawnErrMessage "spawn_error" false original ctx
    else
      let step1 : String × Bool × String :=
        match jGetOpt original "code" with
        | some (.num c) =>
            if c = -32601 then ("server_error", false, "Method not found" ++ toolSuffix)
            else if c = -32602 then ("server_error", false, "Invalid params" ++ toolSuffix)
            else if c = -32603 then ("server_error", true, "Internal error" ++ callSuffix)
            else if c ≤ -32000 ∧ c ≥ -32099 then
              ("server_error",
               (match jGetOpt original "data" with
                | some d => oTruthy (jGetOpt d "retryable")
                | none => false),
               message0)
            else ("server_error", false, message0)
        | _ => ("server_error", false, message0)
      let step2 : String × Bool × String :=
        match jGetOpt original "data" with
        | some d =>
            if jTruthy d && isTypeofObject d then
              if jGetOpt d "kind" = some (.str "tool_error") then
                ("tool_error", oTruthy (jGetOpt d "retryable"),
                 if oTruthy (jGetOpt d "message") && step1.2.2 = "" then
                   jsToString (jGetOr d "message")
                 else step1.2.2)
              else step1
            else step1
        | none => step1
      let messageF :=
        if step2.2.2 = "" || step2.2.2 = "[object Object]" then "Tool/server error"
        else step2.2.2
      buildErr code0 messageF step2.1 step2.2.1 original ctx

/-! ## `src/index.ts` — aggregator dispatch -/

/-- A `parentIdToCtx` record: `{ method, params }`. -/
structure CallCtx where
  method : String
  params : Option Json
deriving DecidableEq

/-- First-match lookup in a string-keyed association list (`Map.get`). -/
def sLookup {α : Type} : List (String × α) → String → Option α
  | [], _ => none
  | (k, v) :: rest, key => if k = key then some v else sLookup rest key

/-- Lookup in a map keyed by parent ids.  A parent id is an `Option Json`
(`none` is JavaScript `undefined`, a legal `Map` key). -/
def kLookup {α : Type} : List (Option Json × α) → Option Json → Option α
  | [], _ => none
  | (k, v) :: rest, key => if k = key then some v else kLookup rest key

/-- `Map.set`: update in place or append. -/
def kSet {α : Type} : List (Option Json × α) → Option Json → α → List (Option Json × α)
  | [], key, v => [(key, v)]
  | (k, w) :: rest, key, v =>
      if k = key then (k, v) :: rest else (k, w) :: kSet rest key v

/-- The outward effects of one dispatch step: a frame written to the parent
(`process.stdout`), a frame written verbatim to one child, a request built
by `ChildClient.request`, or the start of one of the asynchronous fan-outs
(whose reductions are modelled by separate pure functions below). -/
inductive Eff where
  | reply (msg : Json)
  | sendChild (child : Child) (msg : Json)
  | sendRequest (child : Child) (method : String) (params : Option Json) (idArg : Option Json)
  | initFanout (id : Option Json) (params : Option Json) (pver : Json)
  | toolsListFanout (id : Option Json)
deriving DecidableEq

/-- The id actually used by `ChildClient.request`: `id ?? this.idSeq++`. -/
def requestIdUsed (idArg : Option Json) (seq : Int) : Json :=
  match idArg with
  | some v => if v = Json.null then .num seq else v
  | none => .num seq

/-- The request frame written by `ChildClient.request`:
`{ jsonrpc: "2.0", id: useId, method, params }` (an `undefined` `params`
key is dropped by `JSON.stringify`). -/
def requestWire (method : String) (params : Option Json) (idArg : Option Json) (seq : Int) : Json :=
  .obj ([("jsonrpc", Json.str "2.0"), ("id", requestIdUsed idArg seq), ("method", Json.str method)]
    ++ (match params with | some p => [("params", p)] | none => []))

/-- `{ jsonrpc: "2.0", id, error }`; an `undefined` id key is dropped by
`JSON.stringify`. -/
def errResponse (idOpt : Option Json) (error : Json) : Json :=
  .obj ([("jsonrpc", Json.str "2.0")]
    ++ (match idOpt with | some v => [("id", v)] | none => [])
    ++ [("error", error)])

/-- `{ jsonrpc: "2.0", id, result }`. -/
def okResponse (idOpt : Option Json) (result : Json) : Json :=
  .obj ([("jsonrpc", Json.str "2.0")]
    ++ (match idOpt with | some v => [("id", v)] | none => [])
    ++ [("result", result)])

/-- The notification frame written by `ChildClient.notify`:
`{ jsonrpc: "2.0", method, params }`. -/
def notifyMsg (method : Json) (params : Option Json) : Json :=
  .obj ([("jsonrpc", Json.str "2.0"), ("method", method)]
    ++ (match params with | some p => [("params", p)] | none => []))

/-- `{...(parentMsg.params || {}), name: orig}`.  On the reachable path
`params` is an object that carries the string `name` under which the tool
was found, so the spread preserves every other field and the override
updates `name` in place. -/
def spreadSetName (params : Option Json) (orig : String) : Json :=
  match params with
  | some (.obj fs) => .obj (setOrAppend fs "name" (.str orig))
  | _ => .obj [("name", Json.str orig)]

/-- `handleToolsCall` (index.ts lines 455-487): look the published name up
in `toolToChild`; on a miss reply with the normalized `-32601` error; on a
hit record the routing entries and forward the call to the owning child
with the parent id and the original name.  (The `.catch` failure path of
the forwarded promise is asynchronous and not part of this step.)  Returns
the updated `parentIdToForward` and `parentIdToCtx` maps and the effect. -/
def handleToolsCall (passthrough : Bool) (toolToChild : List (String × Child × String))
    (fwd : List (Option Json × Child)) (ctx : List (Option Json × CallCtx))
    (parentMsg : Json) :
    List (Option Json × Child) × List (Option Json × CallCtx) × Eff :=
  let params := jGetOpt parentMsg "params"
  let nameV : Option Json := match params with | some p => jGetOpt p "name" | none => none
  let parentId := jGetOpt parentMsg "id"
  let entry := match nameV with | some (.str s) => sLookup toolToChild s | _ => none
  match entry with
  | none =>
      let nm := jsToStringU nameV
      let error := normalizeError passthrough
        (.obj [("error", .obj [("code", Json.num (-32601)),
                               ("message", Json.str ("Tool not found: " ++ nm))])])
        { method := some "tools/call", toolName := some nm, serverName := none }
      (fwd, ctx, .reply (errResponse parentId error))
  | some (child, orig) =>
      (kSet fwd parentId child,
       kSet ctx parentId { method := "tools/call", params },
       .sendRequest child "tools/call" (some (spreadSetName params orig)) parentId)

/-- `minimalInitializeResult` (index.ts lines 25-33). -/
def minimalInitializeResult (protocolVersion : Json) : Json :=
  .obj [("serverInfo", .obj [("name", Json.str "mcp"), ("version", Json.str "0.0.0")]),
        ("protocolVersion", protocolVersion),
        ("capabilities", .obj [("tools", .obj [("listChanged", Json.bool false)])])]

/-- `msg?.params?.protocolVersion || "2024-06-13"`. -/
def initPver (params : Option Json) : Json :=
  match params with
  | some p =>
      match jGetOpt p "protocolVersion" with
      | some v => if jTruthy v then v else .str "2024-06-13"
      | none => .str "2024-06-13"
  | none => .str "2024-06-13"

/-- The coercion the `initialize` success path applies to the first child
result (index.ts lines 585-602), as observable through `JSON.stringify`.
A falsy or non-`typeof`-object result is replaced by `{}`.  An array result
passes through: every later property assignment targets real but
unserialized array properties.  For a truthy primitive `capabilities` or
`serverInfo` the nested assignment throws a strict-mode `TypeError`, which
the surrounding handler swallows after `settled` was already set, so no
reply is written at all: that is the `none` outcome. -/
def coerceInitResult (params : Option Json) (pver : Json) (r0 : Json) : Option Json :=
  let pvReq : Option Json := match params with | some p => jGetOpt p "protocolVersion" | none => none
  let protoVer := match pvReq with | some v => if jTruthy v then v else pver | none => pver
  let r1 := if !(jTruthy r0 && isTypeofObject r0) then Json.obj [] else r0
  match r1 with
  | .arr _ => some r1
  | _ =>
    let r2 := if oNullish (jGetOpt r1 "protocolVersion") then jSet r1 "protocolVersion" protoVer else r1
    let r3 := if !oTruthy (jGetOpt r2 "capabilities") then jSet r2 "capabilities" (.obj []) else r2
    match jGetOpt r3 "capabilities" with
    | some caps =>
        let afterTools : Option Json :=
          if !oTruthy (jGetOpt caps "tools") then
            match caps with
            | .obj cf =>
                some (jSet r3 "capabilities"
                  (.obj (setOrAppend cf "tools" (.obj [("listChanged", Json.bool false)]))))
            | .arr _ => some r3
            | _ => none
          else some r3
        match afterTools with
        | none => none
        | some r4 =>
            let r5 := if !oTruthy (jGetOpt r4 "serverInfo") then jSet r4 "serverInfo" (.obj []) else r4
            match jGetOpt r5 "serverInfo" with
            | some si =>
                match si with
                | .obj sf => some (jSet r5 "serverInfo" (.obj (setOrAppend sf "name" (Json.str "mcp"))))
                | .arr _ => some r5
                | _ => none
            | none => none
    | none => none

/-- The reply written on the `initialize` success path: the coerced first
child result wrapped as `{ jsonrpc, id, result }` (no reply when the
coercion throws). -/
def initializeSuccessReply (parentId : Option Json) (params : Option Json) (pver : Json)
    (firstResult : Json) : Option Json :=
  (coerceInitResult params pver firstResult).map (okResponse parentId)

/-- Aggregator state: the live child list and the three routing maps. -/
structure Agg where
  children : List Child
  toolToChild : List (String × Child × String)
  parentIdToForward : List (Option Json × Child)
  parentIdToCtx : List (Option Json × CallCtx)
deriving DecidableEq

/-- `msg.jsonrpc === "2.0"`. -/
def jsonrpcOk (msg : Json) : Bool :=
  match jGetOpt msg "jsonrpc" with
  | some (.str s) => s = "2.0"
  | _ => false

/-- The parent-side dispatcher (`main`, index.ts lines 526-684).  A message
with a string method is handled by the switch — every branch of which
returns — so the trailing "notifications (no id): broadcast" block is
reached only for a truthy non-string `method`.  Asynchronous fan-outs are
emitted as markers whose reductions are modelled by the pure functions
above/below. -/
def dispatchParent (passthrough : Bool) (st : Agg) (msg : Json) : Agg × List Eff :=
  if jTruthy msg && jsonrpcOk msg then
    let methodV := jGetOpt msg "method"
    let paramsO := jGetOpt msg "params"
    match methodV with
    | some (.str m) =>
        let idO := jGetOpt msg "id"
        let st1 :=
          if !oNullish idO then
            { st with parentIdToCtx := kSet st.parentIdToCtx idO { method := m, params := paramsO } }
          else st
        if m = "initialize" then
          if oNullish idO then (st1, [])
          else
            let pver := initPver paramsO
            if st1.children.isEmpty then
              (st1, [.reply (okResponse idO (minimalInitializeResult pver))])
            else (st1, [.initFanout idO paramsO pver])
        else if m = "tools/list" then
          if oNullish idO then (st1, []) else (st1, [.toolsListFanout idO])
        else if m = "tools/call" then
          let r := handleToolsCall passthrough st1.toolToChild st1.parentIdToForward st1.parentIdToCtx msg
          ({ st1 with parentIdToForward := r.1, parentIdToCtx := r.2.1 }, [r.2.2])
        else
          if !oNullish idO && m = "ping" then
            (st1, [.reply (okResponse idO (.obj [("ok", Json.bool true)]))])
          else
            match st1.children with
            | [] =>
                if !oNullish idO then
                  (st1, [.reply (errResponse idO (.obj [("code", Json.num (-32601)),
                    ("message", Json.str ("Method not found: " ++ m))]))])
                else (st1, [])
            | first :: _ =>
                let st2 :=
                  if !oNullish idO then
                    { st1 with parentIdToForward := kSet st1.parentIdToForward idO first }
                  else st1
                (st2, [.sendChild first msg])
    | _ =>
        if oTruthy methodV && oNullish (jGetOpt msg "id") then
          (st, st.children.map (fun c => .sendChild c (notifyMsg (methodV.getD .null) paramsO)))
        else (st, [])
  else (st, [])

/-! ## `handleToolsList` merging (index.ts lines 366-434) -/

/-- `Array.isArray(result?.tools) ? result.tools : []`. -/
def toolsOfResult (r : Json) : List Json :=
  match jGetOpt r "tools" with
  | some (.arr ts) => ts
  | _ => []

/-- The inner tool loop of `handleToolsList`: skip non-object entries; a
tool with a truthy string name is published as `<childKey>__<orig>` unless
that name is already taken (first occurrence wins); other tools are passed
through unchanged.  `merged` and `toolToChild` grow by appending, matching
`push`/`Map.set` insertion order. -/
def mergeTools (child : Child) : List Json → List Json → List (String × Child × String) →
    List Json × List (String × Child × String)
  | [], merged, ttc => (merged, ttc)
  | t :: rest, merged, ttc =>
      if !(jTruthy t && isTypeofObject t) then mergeTools child rest merged ttc
      else
        match jGetOpt t "name" with
        | some (.str orig) =>
            if orig ≠ "" then
              let newName := getChildKey child ++ "__" ++ orig
              match sLookup ttc newName with
              | none =>
                  mergeTools child rest (merged ++ [jSet t "name" (.str newName)])
                    (ttc ++ [(newName, child, orig)])
              | some _ => mergeTools child rest merged ttc
            else mergeTools child rest (merged ++ [t]) ttc
        | _ => mergeTools child rest (merged ++ [t]) ttc

/-- The outer loop over the per-child `tools/list` results, in the order
they populated `results`. -/
def mergeResultsGo : List (Child × Json) → List Json → List (String × Child × String) →
    List Json × List (String × Child × String)
  | [], merged, ttc => (merged, ttc)
  | (child, r) :: rest, merged, ttc =>
      let p := mergeTools child (toolsOfResult r) merged ttc
      mergeResultsGo rest p.1 p.2

/-- The catalog merge of `handleToolsList`: `toolToChild.clear()` followed
by the nested loops.  Returns the `merged` tool list and the rebuilt
`toolToChild`. -/
def mergeResults (results : List (Child × Json)) : List Json × List (String × Child × String) :=
  mergeResultsGo results [] []

/-- The reply written by `handleToolsList`:
`{ jsonrpc, id, result: normalizeToolsListResult({ tools: merged }) }`,
paired with the rebuilt `toolToChild`. -/
def handleToolsListReply (parentId : Option Json) (results : List (Child × Json)) :
    Json × List (String × Child × String) :=
  let p := mergeResults results
  (okResponse parentId (normalizeToolsListResult (Json.obj [("tools", Json.arr p.1)])), p.2)

/-! ## Association-list lemmas -/

theorem jLookup_setOrAppend_self (fs : List (String × Json)) (k : String) (v : Json) :
    jLookup (setOrAppend fs k v) k = some v := by
  induction fs with
  | nil => simp [setOrAppend, jLookup]
  | cons hd t ih =>
      obtain ⟨k2, w⟩ := hd
      by_cases hk : k2 = k
      · simp [setOrAppend, hk, jLookup]
      · simp [setOrAppend, hk, jLookup, ih]

theorem setOrAppend_self_of_lookup (fs : List (String × Json)) (k : String) (v : Json)
    (h : jLookup fs k = some v) : setOrAppend fs k v = fs := by
  induction fs with
  | nil => simp [jLookup] at h
  | cons hd t ih =>
      obtain ⟨k2, w⟩ := hd
      by_cases hk : k2 = k
      · simp [jLookup, hk] at h
        simp [setOrAppend, hk, h]
      · simp [jLookup, hk] at h
        simp [setOrAppend, hk, ih h]

theorem jLookup_setOrAppend_ne (fs : List (String × Json)) (k k' : String) (v : Json)
    (h : k' ≠ k) : jLookup (setOrAppend fs k v) k' = jLookup fs k' := by
  have hne : k ≠ k' := fun he => h he.symm
  induction fs with
  | nil => simp [setOrAppend, jLookup, hne]
  | cons hd t ih =>
      obtain ⟨k2, w⟩ := hd
      by_cases hk : k2 = k
      · subst hk
        simp [setOrAppend, jLookup, hne]
      · by_cases hk2 : k2 = k'
        · subst hk2
          simp [setOrAppend, hk, jLookup]
        · simp [setOrAppend, hk, jLookup, hk2, ih]

/-! ## Idempotence of the schema walk (claim C7 machinery) -/

theorem visit_obj (g : List (String × Json)) :
    visit (.obj g) = .obj (applyTypeAction (visitFields g) (typeFixAction g)) := rfl

theorem applyTypeAction_none (fs : List (String × Json)) : applyTypeAction fs none = fs := rfl

theorem applyTypeAction_some (fs : List (String × Json)) (v : Json) :
    applyTypeAction fs (some v) = setOrAppend fs "type" v := rfl

theorem visitFields_type_head (v : Json) (rest : List (String × Json)) :
    visitFields (("type", v) :: rest) = ("type", v) :: visitFields rest := rfl

theorem visit_null : visit Json.null = Json.null := rfl

theorem visit_boolc (b : Bool) : visit (Json.bool b) = Json.bool b := rfl

theorem visit_numc (n : Int) : visit (Json.num n) = Json.num n := rfl

theorem visit_strc (s : String) : visit (Json.str s) = Json.str s := rfl

theorem visit_arrc (xs : List Json) : visit (Json.arr xs) = Json.arr xs := rfl

theorem visitFields_cons_obj (k : String) (fs2 : List (String × Json))
    (rest : List (String × Json)) :
    visitFields ((k, Json.obj fs2) :: rest) =
      (k, if containerKey k = true then Json.obj (visitVals fs2)
          else if k = "items" then visit (Json.obj fs2)
          else Json.obj fs2) :: visitFields rest := by
  simp only [visitFields]
  by_cases hcont : containerKey k = true <;> by_cases hit : k = "items" <;>
    by_cases hcomb : combinatorKey k = true <;> simp [hcont, hit, hcomb]

theorem visitFields_cons_arr (k : String) (xs : List Json) (rest : List (String × Json)) :
    visitFields ((k, Json.arr xs) :: rest) =
      (k, if containerKey k = true ∨ k = "items" ∨ combinatorKey k = true
          then Json.arr (visitList xs)
          else Json.arr xs) :: visitFields rest := by
  simp only [visitFields]
  by_cases hcont : containerKey k = true <;> by_cases hit : k = "items" <;>
    by_cases hcomb : combinatorKey k = true <;> simp [hcont, hit, hcomb]

theorem visitFields_cons_null (k : String) (rest : List (String × Json)) :
    visitFields ((k, Json.null) :: rest) = (k, Json.null) :: visitFields rest := by
  simp only [visitFields]
  by_cases hcont : containerKey k = true <;> by_cases hit : k = "items" <;>
    by_cases hcomb : combinatorKey k = true <;> simp [hcont, hit, hcomb, visit_null]

theorem visitFields_cons_bool (k : String) (b : Bool) (rest : List (String × Json)) :
    visitFields ((k, Json.bool b) :: rest) = (k, Json.bool b) :: visitFields rest := by
  simp only [visitFields]
  by_cases hcont : containerKey k = true <;> by_cases hit : k = "items" <;>
    by_cases hcomb : combinatorKey k = true <;> simp [hcont, hit, hcomb, visit_boolc]

theorem visitFields_cons_num (k : String) (n : Int) (rest : List (String × Json)) :
    visitFields ((k, Json.num n) :: rest) = (k, Json.num n) :: visitFields rest := by
  simp only [visitFields]
  by_cases hcont : containerKey k = true <;> by_cases hit : k = "items" <;>
    by_cases hcomb : combinatorKey k = true <;> simp [hcont, hit, hcomb, visit_numc]

theorem visitFields_cons_str (k : String) (s : String) (rest : List (String × Json)) :
    visitFields ((k, Json.str s) :: rest) = (k, Json.str s) :: visitFields rest := by
  simp only [visitFields]
  by_cases hcont : containerKey k = true <;> by_cases hit : k = "items" <;>
    by_cases hcomb : combinatorKey k = true <;> simp [hcont, hit, hcomb, visit_strc]

theorem jLookup_visitFields_type (fs : List (String × Json)) :
    jLookup (visitFields fs) "type" = jLookup fs "type" := by
  induction fs with
  | nil => rfl
  | cons hd t ih =>
      obtain ⟨k, v⟩ := hd
      by_cases hk : k = "type"
      · subst hk
        rw [visitFields_type_head]
        simp [jLookup]
      · cases v with
        | obj fs2 => rw [visitFields_cons_obj]; simp [jLookup, hk, ih]
        | arr xs => rw [visitFields_cons_arr]; simp [jLookup, hk, ih]
        | null => rw [visitFields_cons_null]; simp [jLookup, hk, ih]
        | bool b => rw [visitFields_cons_bool]; simp [jLookup, hk, ih]
        | num n => rw [visitFields_cons_num]; simp [jLookup, hk, ih]
        | str s => rw [visitFields_cons_str]; simp [jLookup, hk, ih]

theorem visitFields_setOrAppend_type (fs : List (String × Json)) (v : Json) :
    visitFields (setOrAppend fs "type" v) = setOrAppend (visitFields fs) "type" v := by
  induction fs with
  | nil => rfl
  | cons hd t ih =>
      obtain ⟨k, w⟩ := hd
      by_cases hk : k = "type"
      · subst hk
        rw [show setOrAppend (("type", w) :: t) "type" v = ("type", v) :: t from by
          simp [setOrAppend]]
        rw [visitFields_type_head, visitFields_type_head]
        simp [setOrAppend]
      · rw [show setOrAppend ((k, w) :: t) "type" v = (k, w) :: setOrAppend t "type" v from by
          simp [setOrAppend, hk]]
        cases w with
        | obj fs2 =>
            rw [visitFields_cons_obj, visitFields_cons_obj]
            simp [setOrAppend, hk, ih]
        | arr xs =>
            rw [visitFields_cons_arr, visitFields_cons_arr]
            simp [setOrAppend, hk, ih]
        | null =>
            rw [visitFields_cons_null, visitFields_cons_null]
            simp [setOrAppend, hk, ih]
        | bool b =>
            rw [visitFields_cons_bool, visitFields_cons_bool]
            simp [setOrAppend, hk, ih]
        | num n =>
            rw [visitFields_cons_num, visitFields_cons_num]
            simp [setOrAppend, hk, ih]
        | str s =>
            rw [visitFields_cons_str, visitFields_cons_str]
            simp [setOrAppend, hk, ih]

theorem map_integerToNumber_self (ts : List Json) (h : ∀ t ∈ ts, t ≠ Json.str "integer") :
    ts.map integerToNumber = ts := by
  induction ts with
  | nil => rfl
  | cons x xs ih =>
      have hx : integerToNumber x = x := by
        unfold integerToNumber
        rw [if_neg (h x (List.mem_cons_self x xs))]
      simp [hx, ih (fun t ht => h t (List.mem_cons_of_mem x ht))]

theorem inferType_ne_integer (fs : List (String × Json)) : inferType fs ≠ "integer" := by
  unfold inferType
  split
  · split <;> decide
  · split
    · decide
    · decide
    · split <;> decide

theorem typeFixAction_str (fs : List (String × Json)) (s : String)
    (h : jLookup fs "type" = some (Json.str s)) :
    typeFixAction fs = if s = "integer" then some (Json.str "number") else none := by
  unfold typeFixAction
  rw [h]

theorem typeFixAction_arr (fs : List (String × Json)) (ts : List Json)
    (h : jLookup fs "type" = some (Json.arr ts)) :
    typeFixAction fs =
      some (if (ts.map integerToNumber).isEmpty then Json.str "string"
            else Json.arr (ts.map integerToNumber)) := by
  unfold typeFixAction
  rw [h]

theorem typeFixAction_nullv (fs : List (String × Json))
    (h : jLookup fs "type" = some Json.null) :
    typeFixAction fs = some (Json.str (inferType fs)) := by
  unfold typeFixAction
  rw [h]

theorem typeFixAction_nokey (fs : List (String × Json))
    (h : jLookup fs "type" = none) :
    typeFixAction fs = some (Json.str (inferType fs)) := by
  unfold typeFixAction
  rw [h]

theorem typeFixAction_boolv (fs : List (String × Json)) (b : Bool)
    (h : jLookup fs "type" = some (Json.bool b)) : typeFixAction fs = none := by
  unfold typeFixAction
  rw [h]

theorem typeFixAction_numv (fs : List (String × Json)) (n : Int)
    (h : jLookup fs "type" = some (Json.num n)) : typeFixAction fs = none := by
  unfold typeFixAction
  rw [h]

theorem typeFixAction_objv (fs : List (String × Json)) (gs : List (String × Json))
    (h : jLookup fs "type" = some (Json.obj gs)) : typeFixAction fs = none := by
  unfold typeFixAction
  rw [h]

/-- Shape of the values `typeFixAction` can assign: a string other than
`"integer"`, or a nonempty array without `"integer"` members. -/
theorem typeFix_output (fields : List (String × Json)) (v : Json)
    (h : typeFixAction fields = some v) :
    (∃ s, v = Json.str s ∧ s ≠ "integer") ∨
    (∃ ts, v = Json.arr ts ∧ ts ≠ [] ∧ ∀ t ∈ ts, t ≠ Json.str "integer") := by
  cases hc : jLookup fields "type" with
  | none =>
      rw [typeFixAction_nokey fields hc] at h
      cases h
      exact Or.inl ⟨_, rfl, inferType_ne_integer fields⟩
  | some w =>
      cases w with
      | str s =>
          rw [typeFixAction_str fields s hc] at h
          by_cases hs : s = "integer"
          · rw [if_pos hs] at h
            cases h
            exact Or.inl ⟨"number", rfl, by decide⟩
          · rw [if_neg hs] at h
            cases h
      | arr ts =>
          rw [typeFixAction_arr fields ts hc] at h
          cases h
          cases hmap : (ts.map integerToNumber).isEmpty with
          | true =>
              refine Or.inl ⟨"string", ?_, by decide⟩
              simp [hmap]
          | false =>
              refine Or.inr ⟨ts.map integerToNumber, ?_, ?_, ?_⟩
              · simp [hmap]
              · intro he
                rw [he] at hmap
                simp at hmap
              · intro t ht
                obtain ⟨t0, _, rfl⟩ := List.mem_map.mp ht
                unfold integerToNumber
                split
                · decide
                · assumption
      | null =>
          rw [typeFixAction_nullv fields hc] at h
          cases h
          exact Or.inl ⟨_, rfl, inferType_ne_integer fields⟩
      | bool b => rw [typeFixAction_boolv fields b hc] at h; cases h
      | num n => rw [typeFixAction_numv fields n hc] at h; cases h
      | obj gs => rw [typeFixAction_objv fields gs hc] at h; cases h

theorem typeFixAction_none_propagate (fields g : List (String × Json))
    (h : typeFixAction fields = none)
    (hl : jLookup g "type" = jLookup fields "type") : typeFixAction g = none := by
  cases hc : jLookup fields "type" with
  | none => rw [typeFixAction_nokey fields hc] at h; cases h
  | some w =>
      have hg : jLookup g "type" = some w := by rw [hl, hc]
      cases w with
      | str s =>
          rw [typeFixAction_str fields s hc] at h
          rw [typeFixAction_str g s hg]
          by_cases hs : s = "integer"
          · rw [if_pos hs] at h; cases h
          · rw [if_neg hs]
      | arr ts => rw [typeFixAction_arr fields ts hc] at h; cases h
      | null => rw [typeFixAction_nullv fields hc] at h; cases h
      | bool b => exact typeFixAction_boolv g b hg
      | num n => exact typeFixAction_numv g n hg
      | obj gs => exact typeFixAction_objv g gs hg

theorem typeFix_stable_apply (g : List (String × Json)) (v : Json)
    (hv : (∃ s, v = Json.str s ∧ s ≠ "integer") ∨
      (∃ ts, v = Json.arr ts ∧ ts ≠ [] ∧ ∀ t ∈ ts, t ≠ Json.str "integer"))
    (hg : jLookup g "type" = some v) :
    applyTypeAction g (typeFixAction g) = g := by
  rcases hv with ⟨s, rfl, hs⟩ | ⟨ts, rfl, hne, hmem⟩
  · rw [typeFixAction_str g s hg, if_neg hs, applyTypeAction_none]
  · rw [typeFixAction_arr g ts hg, map_integerToNumber_self ts hmem]
    have hie : ts.isEmpty = false := by
      cases ts with
      | nil => exact absurd rfl hne
      | cons a as => rfl
    rw [if_neg (by simp [hie]), applyTypeAction_some]
    exact setOrAppend_self_of_lookup g "type" (Json.arr ts) hg

mutual

theorem visit_idem : ∀ j : Json, visit (visit j) = visit j
  | .null => rfl
  | .bool _ => rfl
  | .num _ => rfl
  | .str _ => rfl
  | .arr _ => rfl
  | .obj fields => by
      rw [visit_obj fields, visit_obj]
      cases hA : typeFixAction fields with
      | none =>
          rw [applyTypeAction_none, visitFields_idem fields,
            typeFixAction_none_propagate fields (visitFields fields) hA
              (jLookup_visitFields_type fields), applyTypeAction_none]
      | some v =>
          rw [applyTypeAction_some, visitFields_setOrAppend_type, visitFields_idem fields,
            typeFix_stable_apply (setOrAppend (visitFields fields) "type" v) v
              (typeFix_output fields v hA)
              (jLookup_setOrAppend_self (visitFields fields) "type" v)]

theorem visitFields_idem : ∀ fs : List (String × Json),
    visitFields (visitFields fs) = visitFields fs
  | [] => rfl
  | (k, v) :: rest => by
      cases v with
      | obj fs2 =>
          by_cases hcont : containerKey k = true
          · rw [visitFields_cons_obj, if_pos hcont, visitFields_cons_obj, if_pos hcont,
              visitFields_idem rest, visitVals_idem fs2]
          · by_cases hit : k = "items"
            · subst hit
              have hnc : ¬containerKey "items" = true := by decide
              calc visitFields (visitFields (("items", Json.obj fs2) :: rest))
                  = visitFields (("items", visit (Json.obj fs2)) :: visitFields rest) := by
                    rw [visitFields_cons_obj, if_neg hnc, if_pos rfl]
                _ = ("items", visit (visit (Json.obj fs2))) :: visitFields (visitFields rest) := by
                    rw [visit_obj fs2, visitFields_cons_obj, if_neg hnc, if_pos rfl]
                _ = ("items", visit (Json.obj fs2)) :: visitFields rest := by
                    rw [visit_idem (Json.obj fs2), visitFields_idem rest]
                _ = visitFields (("items", Json.obj fs2) :: rest) := by
                    rw [visitFields_cons_obj, if_neg hnc, if_pos rfl]
            · rw [visitFields_cons_obj, if_neg hcont, if_neg hit, visitFields_cons_obj,
                if_neg hcont, if_neg hit, visitFields_idem rest]
      | arr xs =>
          by_cases hx : containerKey k = true ∨ k = "items" ∨ combinatorKey k = true
          · rw [visitFields_cons_arr, if_pos hx, visitFields_cons_arr, if_pos hx,
              visitFields_idem rest, visitList_idem xs]
          · rw [visitFields_cons_arr, if_neg hx, visitFields_cons_arr, if_neg hx,
              visitFields_idem rest]
      | null =>
          rw [visitFields_cons_null, visitFields_cons_null, visitFields_idem rest]
      | bool b =>
          rw [visitFields_cons_bool, visitFields_cons_bool, visitFields_idem rest]
      | num n =>
          rw [visitFields_cons_num, visitFields_cons_num, visitFields_idem rest]
      | str s =>
          rw [visitFields_cons_str, visitFields_cons_str, visitFields_idem rest]

theorem visitVals_idem : ∀ fs : List (String × Json), visitVals (visitVals fs) = visitVals fs
  | [] => rfl
  | (k, v) :: rest => by
      show (k, visit (visit v)) :: visitVals (visitVals rest) = (k, visit v) :: visitVals rest
      rw [visit_idem v, visitVals_idem rest]

theorem visitList_idem : ∀ xs : List Json, visitList (visitList xs) = visitList xs
  | [] => rfl
  | x :: xs => by
      show visit (visit x) :: visitList (visitList xs) = visit x :: visitList xs
      rw [visit_idem x, visitList_idem xs]

end

/-! ## String helper lemmas -/

theorem append_ne_of_head (c : Char) (a b t : String) (ha : a.data.head? = some c)
    (ht : t.data.head? ≠ some c) : a ++ b ≠ t := by
  intro h
  apply ht
  rw [← h]
  show ((a ++ b).data).head? = some c
  have hd : (a ++ b).data = a.data ++ b.data := rfl
  rw [hd]
  cases had : a.data with
  | nil => rw [had] at ha; cases ha
  | cons x tl =>
      rw [had] at ha
      simpa using ha

theorem toolNotFound_ne_empty (name : String) : "Tool not found: " ++ name ≠ "" :=
  append_ne_of_head 'T' _ _ _ (by decide) (by decide)

theorem mnf_ne_empty (suffix : String) : "Method not found" ++ suffix ≠ "" :=
  append_ne_of_head 'M' _ _ _ (by decide) (by decide)

theorem mnf_ne_objobj (suffix : String) :
    "Method not found" ++ suffix ≠ "[object Object]" :=
  append_ne_of_head 'M' _ _ _ (by decide) (by decide)

theorem mnf_suffix_assoc (name : String) :
    "Method not found" ++ (" for tool \x27" ++ name ++ "\x27") =
      "Method not found for tool \x27" ++ name ++ "\x27" := by
  have h : "Method not found" ++ " for tool \x27" = "Method not found for tool \x27" := rfl
  rw [← String.append_assoc, ← String.append_assoc, h]

/-! ## Claim theorems: schema normalizer and frame decoder -/

/-- C7: schema normalization is idempotent — for every input schema `s`,
`normalizeSchema (normalizeSchema s) = normalizeSchema s`. -/
theorem c7_normalize_idempotent (s : Json) :
    normalizeSchema (normalizeSchema s) = normalizeSchema s :=
  visit_idem s

/-- C4 counterexample: the normalizer does not collapse a `type` array to a
single string.  On input `type: ["integer","null"]` it rewrites the
`"integer"` member and keeps the array (and the `"null"` member), so the
output is `type: ["number","null"]`, not `type: "number"`. -/
theorem c4_counterexample :
    normalizeSchema (Json.obj [("type", Json.arr [Json.str "integer", Json.str "null"])]) =
      Json.obj [("type", Json.arr [Json.str "number", Json.str "null"])] ∧
    normalizeSchema (Json.obj [("type", Json.arr [Json.str "integer", Json.str "null"])]) ≠
      Json.obj [("type", Json.str "number")] := by
  constructor
  · decide
  · decide

/-- C4 amended: for every schema node whose `type` is an array, the
normalizer maps each `"integer"` member to `"number"` and keeps the array;
only an empty array is replaced by the single string `"string"`. -/
theorem c4_amended (fields : List (String × Json)) (ts : List Json)
    (h : jLookup fields "type" = some (Json.arr ts)) :
    jGetOpt (normalizeSchema (Json.obj fields)) "type" =
      some (if (ts.map integerToNumber).isEmpty then Json.str "string"
            else Json.arr (ts.map integerToNumber)) := by
  show jGetOpt (visit (Json.obj fields)) "type" = _
  rw [visit_obj, typeFixAction_arr fields ts h, applyTypeAction_some]
  show jLookup (setOrAppend (visitFields fields) "type" _) "type" = _
  exact jLookup_setOrAppend_self _ _ _

/-- Witness for the amended C4 at `type: ["integer","null"]`. -/
theorem c4_amended_witness :
    jLookup [("type", Json.arr [Json.str "integer", Json.str "null"])] "type" =
      some (Json.arr [Json.str "integer", Json.str "null"]) ∧
    jGetOpt (normalizeSchema (Json.obj [("type",
        Json.arr [Json.str "integer", Json.str "null"])])) "type" =
      some (Json.arr [Json.str "number", Json.str "null"]) :=
  ⟨by decide, c4_amended [("type", Json.arr [Json.str "integer", Json.str "null"])]
    [Json.str "integer", Json.str "null"] (by decide)⟩

/-- The `JSON.stringify` text of the JSON-RPC value `true`, used as the
frame payload in the C5 theorems. -/
def c5payload : List Char := ['t', 'r', 'u', 'e']

/-- C5 counterexample: feeding the decoder the line-delimited encoding of a
value immediately followed by the length-prefixed encoding of the same
value, in a single chunk, decodes nothing at all: the `Content-Length:`
marker makes the decoder treat the whole buffer as a length-prefixed frame,
discard the line before the marker as noise, and (because the header-end
index of the unsliced buffer is reused on the sliced one) wait for bytes
that never arrive.  The claim demands both values in order. -/
theorem c5_counterexample :
    onData [] (encodeLine c5payload ++ encodeContentLength c5payload) =
      ([], encodeContentLength c5payload) ∧
    ([] : List (List Char)) ≠ [c5payload, c5payload] := by
  constructor
  · decide
  · decide

/-- C5 amended: the concatenation decodes to both payloads in order when
the length-prefixed encoding comes first, or when the chunk boundary lets
the line be consumed before the `Content-Length:` marker enters the buffer;
with the line first in the same chunk, the line is swallowed as noise and
the decoder stalls on the remaining buffer. -/
theorem c5_amended :
    onData [] (encodeContentLength c5payload ++ encodeLine c5payload) =
      ([c5payload, c5payload], []) ∧
    feedChunks [encodeLine c5payload, encodeContentLength c5payload] [] =
      ([c5payload, c5payload], []) ∧
    onData [] (encodeLine c5payload ++ encodeContentLength c5payload) =
      ([], encodeContentLength c5payload) := by
  refine ⟨by decide, by decide, by decide⟩

/-- The `tools/list` payload used in the C8 counterexample: one tool with a
legacy `parameters` field. -/
def c8payload : Json :=
  Json.obj [("tools", Json.arr [Json.obj [("name", Json.str "x"),
    ("parameters", Json.obj [])]])]

/-- C8 counterexample: `normalizeToolsListResult` mutates the tool objects
of its input in place (it returns the very `result` object it was given),
so the tool objects collected from the children are *not* unchanged by the
normalization pass: a tool carrying `parameters` loses that field and gains
an `inputSchema`. -/
theorem c8_counterexample :
    jGetOpt (normalizeToolsListResult c8payload) "tools" ≠ jGetOpt c8payload "tools" ∧
    normalizeToolsListResult c8payload =
      Json.obj [("tools", Json.arr [Json.obj [("name", Json.str "x"),
        ("inputSchema", Json.obj [("type", Json.str "string")])]])] := by
  constructor
  · decide
  · decide

/-- C8 amended: only `normalizeSchema` works on a deep copy (of the schema
value it is handed); the pass itself rewrites the collected tool objects in
place, so the payload emitted by `handleToolsList` is the collected `merged`
list with every tool replaced by its in-place-updated form `toolFix`, and
the caller-visible payload changes whenever `toolFix` changes a tool. -/
theorem c8_amended (pid : Option Json) (results : List (Child × Json)) :
    handleToolsListReply pid results =
      (okResponse pid (Json.obj [("tools",
        Json.arr ((mergeResults results).1.map toolFix))]),
       (mergeResults results).2) := rfl

/-! ## Claim theorems: tools/call routing and error envelope -/

/-- How `normalizeError` shapes the fabricated tool-not-found error: the
`-32601` branch rewrites the message to `Method not found for tool '<n>'`;
the original message survives only inside `data.original`. -/
theorem normalizeError_toolNotFound (name : String) (hne : name ≠ "") :
    normalizeError false
      (Json.obj [("error", Json.obj [("code", Json.num (-32601)),
        ("message", Json.str ("Tool not found: " ++ name))])])
      { method := some "tools/call", toolName := some name, serverName := none } =
    Json.obj [("code", Json.num (-32601)),
      ("message", Json.str ("Method not found for tool \x27" ++ name ++ "\x27")),
      ("data", Json.obj [("kind", Json.str "server_error"), ("retryable", Json.bool false),
        ("original", Json.obj [("code", Json.num (-32601)),
          ("message", Json.str ("Tool not found: " ++ name))]),
        ("toolName", Json.str name)])] := by
  have hmsg := toolNotFound_ne_empty name
  have hm1 := mnf_ne_empty (" for tool \x27" ++ name ++ "\x27")
  have hm2 := mnf_ne_objobj (" for tool \x27" ++ name ++ "\x27")
  have hm1a : ("Method not found for tool \x27" ++ name ++ "\x27") ≠ "" := by
    rw [← mnf_suffix_assoc name]; exact hm1
  have hm2a : ("Method not found for tool \x27" ++ name ++ "\x27") ≠ "[object Object]" := by
    rw [← mnf_suffix_assoc name]; exact hm2
  simp [normalizeError, buildErr, jGetOpt, jLookup, jTruthy, jsToString, jGetOr,
    hne, hmsg, hm1, hm2, hm1a, hm2a, mnf_suffix_assoc]

/-- C2 counterexample data: a `tools/call` for the unknown tool `x`. -/
def c2msg : Json :=
  Json.obj [("jsonrpc", Json.str "2.0"), ("id", Json.num 1),
    ("method", Json.str "tools/call"), ("params", Json.obj [("name", Json.str "x")])]

/-- The error object actually sent for `c2msg`. -/
def c2err : Json :=
  Json.obj [("code", Json.num (-32601)),
    ("message", Json.str "Method not found for tool \x27x\x27"),
    ("data", Json.obj [("kind", Json.str "server_error"), ("retryable", Json.bool false),
      ("original", Json.obj [("code", Json.num (-32601)),
        ("message", Json.str "Tool not found: x")]),
      ("toolName", Json.str "x")])]

/-- C2 counterexample: with no entry for `x`, the proxy replies with code
`-32601`, but the message is `Method not found for tool 'x'` — not
`Tool not found: x` as claimed; that text survives only in
`data.original.message`. -/
theorem c2_counterexample :
    handleToolsCall false [] [] [] c2msg =
      ([], [], Eff.reply (errResponse (some (Json.num 1)) c2err)) ∧
    jGetOpt c2err "message" = some (Json.str "Method not found for tool \x27x\x27") ∧
    jGetOpt c2err "message" ≠ some (Json.str "Tool not found: x") := by
  refine ⟨by decide, by decide, by decide⟩

/-- C2 amended: for a `tools/call` whose (nonempty string) name has no
entry in `toolToChild`, with passthrough off, the proxy replies with an
error of code `-32601` whose message is
`Method not found for tool '<name>'`, and whose `data.original` preserves
the fabricated `Tool not found: <name>` error. -/
theorem c2_amended (ttc : List (String × Child × String))
    (fwd : List (Option Json × Child)) (ctx : List (Option Json × CallCtx))
    (msg p : Json) (name : String) (pid : Json)
    (hp : jGetOpt msg "params" = some p)
    (hn : jGetOpt p "name" = some (Json.str name))
    (hne : name ≠ "")
    (ht : sLookup ttc name = none)
    (hi : jGetOpt msg "id" = some pid) :
    handleToolsCall false ttc fwd ctx msg =
      (fwd, ctx, Eff.reply (Json.obj [("jsonrpc", Json.str "2.0"), ("id", pid),
        ("error", Json.obj [("code", Json.num (-32601)),
          ("message", Json.str ("Method not found for tool \x27" ++ name ++ "\x27")),
          ("data", Json.obj [("kind", Json.str "server_error"),
            ("retryable", Json.bool false),
            ("original", Json.obj [("code", Json.num (-32601)),
              ("message", Json.str ("Tool not found: " ++ name))]),
            ("toolName", Json.str name)])])])) := by
  simp only [handleToolsCall, hp, hn, ht, hi, jsToStringU, jsToString]
  rw [normalizeError_toolNotFound name hne]
  rfl

/-- Witness for the amended C2 at tool name `x` on an empty catalog. -/
theorem c2_amended_witness :
    handleToolsCall false [] [] [] c2msg =
      ([], [], Eff.reply (Json.obj [("jsonrpc", Json.str "2.0"), ("id", Json.num 1),
        ("error", Json.obj [("code", Json.num (-32601)),
          ("message", Json.str ("Method not found for tool \x27" ++ "x" ++ "\x27")),
          ("data", Json.obj [("kind", Json.str "server_error"),
            ("retryable", Json.bool false),
            ("original", Json.obj [("code", Json.num (-32601)),
              ("message", Json.str ("Tool not found: " ++ "x"))]),
            ("toolName", Json.str "x")])])])) :=
  c2_amended [] [] [] c2msg (Json.obj [("name", Json.str "x")]) "x" (Json.num 1)
    (by decide) (by decide) (by decide) (by decide) (by decide)

/-- C1: a `tools/call` whose published name is in `toolToChild` is routed
to the owning child: both routing maps gain the parent id (pointing at the
child and at `("tools/call", params)`), and the forwarded request keeps the
parent id and carries the parent params with `name` replaced in place by the
original (pre-prefix) name, all other fields unchanged. -/
theorem c1_tools_call_routing (pt : Bool) (ttc : List (String × Child × String))
    (fwd : List (Option Json × Child)) (ctx : List (Option Json × CallCtx))
    (msg : Json) (fs : List (String × Json)) (name : String) (child : Child)
    (orig : String) (pid : Json)
    (hp : jGetOpt msg "params" = some (Json.obj fs))
    (hn : jLookup fs "name" = some (Json.str name))
    (ht : sLookup ttc name = some (child, orig))
    (hi : jGetOpt msg "id" = some pid) :
    handleToolsCall pt ttc fwd ctx msg =
      (kSet fwd (some pid) child,
       kSet ctx (some pid) ⟨"tools/call", some (Json.obj fs)⟩,
       Eff.sendRequest child "tools/call"
         (some (Json.obj (setOrAppend fs "name" (Json.str orig)))) (some pid)) ∧
    (pid ≠ Json.null → ∀ seq : Int,
      requestWire "tools/call" (some (Json.obj (setOrAppend fs "name" (Json.str orig))))
          (some pid) seq =
        Json.obj [("jsonrpc", Json.str "2.0"), ("id", pid),
          ("method", Json.str "tools/call"),
          ("params", Json.obj (setOrAppend fs "name" (Json.str orig)))]) := by
  constructor
  · simp only [handleToolsCall, hp, hi, spreadSetName]
    simp only [jGetOpt, hn, ht]
  · intro hnull seq
    simp [requestWire, requestIdUsed, hnull]

/-- Witness for C1: the published `serena__list_dir` routes to the serena
child with the original name `list_dir` and the extra `path` field kept. -/
theorem c1_tools_call_routing_witness :
    handleToolsCall false [("serena__list_dir", (⟨some "serena", "srv"⟩ : Child), "list_dir")]
        [] []
        (Json.obj [("jsonrpc", Json.str "2.0"), ("id", Json.num 7),
          ("method", Json.str "tools/call"),
          ("params", Json.obj [("name", Json.str "serena__list_dir"),
            ("path", Json.str "/tmp")])]) =
      (kSet [] (some (Json.num 7)) (⟨some "serena", "srv"⟩ : Child),
       kSet [] (some (Json.num 7))
         ⟨"tools/call", some (Json.obj [("name", Json.str "serena__list_dir"),
           ("path", Json.str "/tmp")])⟩,
       Eff.sendRequest (⟨some "serena", "srv"⟩ : Child) "tools/call"
         (some (Json.obj (setOrAppend [("name", Json.str "serena__list_dir"),
           ("path", Json.str "/tmp")] "name" (Json.str "list_dir")))) (some (Json.num 7))) ∧
    requestWire "tools/call"
        (some (Json.obj (setOrAppend [("name", Json.str "serena__list_dir"),
          ("path", Json.str "/tmp")] "name" (Json.str "list_dir")))) (some (Json.num 7)) 1 =
      Json.obj [("jsonrpc", Json.str "2.0"), ("id", Json.num 7),
        ("method", Json.str "tools/call"),
        ("params", Json.obj (setOrAppend [("name", Json.str "serena__list_dir"),
          ("path", Json.str "/tmp")] "name" (Json.str "list_dir")))] :=
  ⟨(c1_tools_call_routing false
      [("serena__list_dir", (⟨some "serena", "srv"⟩ : Child), "list_dir")] [] []
      (Json.obj [("jsonrpc", Json.str "2.0"), ("id", Json.num 7),
        ("method", Json.str "tools/call"),
        ("params", Json.obj [("name", Json.str "serena__list_dir"),
          ("path", Json.str "/tmp")])])
      [("name", Json.str "serena__list_dir"), ("path", Json.str "/tmp")]
      "serena__list_dir" ⟨some "serena", "srv"⟩ "list_dir" (Json.num 7)
      (by decide) (by decide) (by decide) (by decide)).1,
   (c1_tools_call_routing false
      [("serena__list_dir", (⟨some "serena", "srv"⟩ : Child), "list_dir")] [] []
      (Json.obj [("jsonrpc", Json.str "2.0"), ("id", Json.num 7),
        ("method", Json.str "tools/call"),
        ("params", Json.obj [("name", Json.str "serena__list_dir"),
          ("path", Json.str "/tmp")])])
      [("name", Json.str "serena__list_dir"), ("path", Json.str "/tmp")]
      "serena__list_dir" ⟨some "serena", "srv"⟩ "list_dir" (Json.num 7)
      (by decide) (by decide) (by decide) (by decide)).2 (by decide) 1⟩

/-! ## Claim theorems: notification handling (C3) -/

/-- The two-child state used in the C3 theorems. -/
def c3state : Agg := ⟨[⟨some "alpha", "ca"⟩, ⟨some "beta", "cb"⟩], [], [], []⟩

/-- A JSON-RPC notification with a string method unknown to the switch. -/
def c3note : Json :=
  Json.obj [("jsonrpc", Json.str "2.0"), ("method", Json.str "notifications/initialized")]

/-- C3 counterexample: a decoded parent notification with a string method
is dispatched by the method switch, which forwards it only to the first
child; with two live children it is not broadcast to every child. -/
theorem c3_counterexample :
    dispatchParent false c3state c3note =
      (c3state, [Eff.sendChild ⟨some "alpha", "ca"⟩ c3note]) ∧
    [Eff.sendChild (⟨some "alpha", "ca"⟩ : Child) c3note] ≠
      c3state.children.map (fun c => Eff.sendChild c c3note) := by
  refine ⟨by decide, by decide⟩

/-- C3 amended: a parent message is broadcast to every child only when its
`method` is truthy but not a string and it has no id; a notification whose
string method is none of `initialize`/`tools/list`/`tools/call` is instead
forwarded verbatim to the first child only (`initialize` and `tools/list`
notifications are dropped, `tools/call` goes through tool routing). -/
theorem c3_amended :
    (∀ (pt : Bool) (st : Agg) (mfs : List (String × Json)) (m : String)
        (first : Child) (restC : List Child),
      jLookup mfs "jsonrpc" = some (Json.str "2.0") →
      jLookup mfs "method" = some (Json.str m) →
      m ≠ "initialize" → m ≠ "tools/list" → m ≠ "tools/call" →
      jLookup mfs "id" = none →
      st.children = first :: restC →
      dispatchParent pt st (Json.obj mfs) = (st, [Eff.sendChild first (Json.obj mfs)])) ∧
    (∀ (pt : Bool) (st : Agg) (mfs : List (String × Json)) (mv : Json),
      jLookup mfs "jsonrpc" = some (Json.str "2.0") →
      jLookup mfs "method" = some mv →
      (∀ s, mv ≠ Json.str s) →
      jTruthy mv = true →
      jLookup mfs "id" = none →
      dispatchParent pt st (Json.obj mfs) =
        (st, st.children.map (fun c =>
          Eff.sendChild c (notifyMsg mv (jLookup mfs "params"))))) := by
  constructor
  · intro pt st mfs m first restC hrpc hm h1 h2 h3 hid hch
    have hok : jsonrpcOk (Json.obj mfs) = true := by simp [jsonrpcOk, jGetOpt, hrpc]
    simp only [dispatchParent, jTruthy, hok, Bool.and_self, if_true, jGetOpt, hm, hid]
    simp only [oNullish, Bool.not_true, Bool.false_eq_true, if_false,
      if_neg h1, if_neg h2, if_neg h3]
    simp [hch]
  · intro pt st mfs mv hrpc hm hns htr hid
    have hok : jsonrpcOk (Json.obj mfs) = true := by simp [jsonrpcOk, jGetOpt, hrpc]
    cases mv with
    | str s => exact absurd rfl (hns s)
    | null => rw [jTruthy] at htr; cases htr
    | bool b =>
        simp only [dispatchParent, jTruthy, hok, Bool.and_self, if_true, jGetOpt, hm, hid]
        simp [oTruthy, oNullish, htr]
    | num n =>
        simp only [dispatchParent, jTruthy, hok, Bool.and_self, if_true, jGetOpt, hm, hid]
        simp [oTruthy, oNullish, htr]
    | arr xs =>
        simp only [dispatchParent, jTruthy, hok, Bool.and_self, if_true, jGetOpt, hm, hid]
        simp [oTruthy, oNullish, htr]
    | obj gs =>
        simp only [dispatchParent, jTruthy, hok, Bool.and_self, if_true, jGetOpt, hm, hid]
        simp [oTruthy, oNullish, htr]

/-! ## Claim theorems: tools/list merge (C6) -/

/-- The truthy string names of a tool list.  Tools published under a
prefixed name always have one; pass-through tools never do. -/
def truthyNames (tools : List Json) : List String :=
  tools.filterMap (fun t =>
    match jGetOpt t "name" with
    | some (.str s) => if s ≠ "" then some s else none
    | _ => none)

/-- The stream of publishable candidates contributed by one child result,
in order: each object tool with a truthy string name, keyed by the name it
would be published under. -/
def candidatesOfTools (child : Child) (ts : List Json) : List (String × Child × String) :=
  ts.filterMap (fun t =>
    if !(jTruthy t && isTypeofObject t) then none
    else
      match jGetOpt t "name" with
      | some (.str s) =>
          if s ≠ "" then some (getChildKey child ++ "__" ++ s, child, s) else none
      | _ => none)

/-- All publishable candidates of a result list, in stream order. -/
def candidateEntries : List (Child × Json) → List (String × Child × String)
  | [] => []
  | (c, r) :: rest => candidatesOfTools c (toolsOfResult r) ++ candidateEntries rest

theorem strLen_append (x y : String) : (x ++ y).length = x.length + y.length := by
  show (x.data ++ y.data).length = x.data.length + y.data.length
  exact List.length_append _ _

theorem newName_ne_empty (a s : String) : a ++ "__" ++ s ≠ "" := by
  intro h
  have hlen := congrArg String.length h
  rw [strLen_append, strLen_append] at hlen
  have h2 : ("__" : String).length = 2 := rfl
  rw [h2] at hlen
  have h0 : ("" : String).length = 0 := rfl
  rw [h0] at hlen
  omega

theorem sLookup_append_some {α : Type} (l1 l2 : List (String × α)) (k : String) (v : α)
    (h : sLookup l1 k = some v) : sLookup (l1 ++ l2) k = some v := by
  induction l1 with
  | nil => simp [sLookup] at h
  | cons hd t ih =>
      obtain ⟨k2, w⟩ := hd
      by_cases hk : k2 = k
      · simp [sLookup, hk] at h ⊢
        exact h
      · simp [sLookup, hk] at h ⊢
        exact ih h

theorem sLookup_append_none {α : Type} (l1 l2 : List (String × α)) (k : String)
    (h : sLookup l1 k = none) : sLookup (l1 ++ l2) k = sLookup l2 k := by
  induction l1 with
  | nil => rfl
  | cons hd t ih =>
      obtain ⟨k2, w⟩ := hd
      by_cases hk : k2 = k
      · simp [sLookup, hk] at h
      · simp [sLookup, hk] at h ⊢
        exact ih h

theorem sLookup_none_iff {α : Type} (l : List (String × α)) (k : String) :
    sLookup l k = none ↔ k ∉ l.map Prod.fst := by
  induction l with
  | nil => simp [sLookup]
  | cons hd t ih =>
      obtain ⟨k2, w⟩ := hd
      by_cases hk : k2 = k
      · subst hk
        simp [sLookup]
      · have hk2 : k ≠ k2 := fun he => hk he.symm
        simp [sLookup, hk, hk2, ih]

theorem truthyNames_append (a b : List Json) :
    truthyNames (a ++ b) = truthyNames a ++ truthyNames b := by
  simp [truthyNames, List.filterMap_append]

/-- The merge-loop invariant statement, abbreviated for reuse. -/
def MergeInv (child : Child) (ts : List Json) (merged : List Json)
    (ttc : List (String × Child × String)) : Prop :=
  truthyNames (mergeTools child ts merged ttc).1 =
      (mergeTools child ts merged ttc).2.map Prod.fst ∧
  ((mergeTools child ts merged ttc).2.map Prod.fst).Nodup ∧
  ∀ n, sLookup (mergeTools child ts merged ttc).2 n =
    (match sLookup ttc n with
     | some e => some e
     | none => sLookup (candidatesOfTools child ts) n)

/-- A tool that is passed through unchanged (or skipped) preserves the
invariant. -/
theorem mergeTools_step_pass (child : Child) (t : Json) (rest : List Json)
    (merged : List Json) (ttc : List (String × Child × String))
    (h1 : truthyNames merged = ttc.map Prod.fst)
    (h2 : (ttc.map Prod.fst).Nodup)
    (heq : mergeTools child (t :: rest) merged ttc =
      mergeTools child rest (merged ++ [t]) ttc)
    (hcand : candidatesOfTools child (t :: rest) = candidatesOfTools child rest)
    (hzero : truthyNames [t] = [])
    (IH : ∀ (merged2 : List Json) (ttc2 : List (String × Child × String)),
      truthyNames merged2 = ttc2.map Prod.fst → (ttc2.map Prod.fst).Nodup →
      MergeInv child rest merged2 ttc2) :
    MergeInv child (t :: rest) merged ttc := by
  have h1n : truthyNames (merged ++ [t]) = ttc.map Prod.fst := by
    rw [truthyNames_append, hzero, List.append_nil, h1]
  unfold MergeInv
  rw [heq, hcand]
  exact IH (merged ++ [t]) ttc h1n h2

/-- Invariant of the inner tool loop: the truthy names of `merged` track
the keys of `toolToChild` in order, keys stay nodup, and the lookup of the
rebuilt map extends the accumulated map (on misses) by the first matching
candidate of this tool stream. -/
theorem mergeTools_inv (child : Child) :
    ∀ (ts : List Json) (merged : List Json) (ttc : List (String × Child × String)),
    truthyNames merged = ttc.map Prod.fst →
    (ttc.map Prod.fst).Nodup →
    MergeInv child ts merged ttc := by
  intro ts
  induction ts with
  | nil =>
      intro merged ttc h1 h2
      refine ⟨h1, h2, fun n => ?_⟩
      show sLookup ttc n = _
      cases sLookup ttc n <;> rfl
  | cons t rest ih =>
      intro merged ttc h1 h2
      by_cases hobj : (jTruthy t && isTypeofObject t) = true
      · -- object-like tool: dispatch on its name
        cases hname : jGetOpt t "name" with
        | none =>
            refine mergeTools_step_pass child t rest merged ttc h1 h2 ?_ ?_ ?_ ih
            · show (if (!(jTruthy t && isTypeofObject t)) = true then _ else _) = _
              rw [hobj, hname]
              rfl
            · simp only [candidatesOfTools, List.filterMap_cons]
              rw [hobj, hname]
              rfl
            · simp [truthyNames, hname]
        | some nv =>
            cases nv with
            | str s =>
                by_cases hs : s = ""
                · subst hs
                  refine mergeTools_step_pass child t rest merged ttc h1 h2 ?_ ?_ ?_ ih
                  · show (if (!(jTruthy t && isTypeofObject t)) = true then _ else _) = _
                    rw [hobj, hname]
                    rfl
                  · simp only [candidatesOfTools, List.filterMap_cons]
                    rw [hobj, hname]
                    rfl
                  · simp [truthyNames, hname]
                · have hcand : candidatesOfTools child (t :: rest) =
                      (getChildKey child ++ "__" ++ s, child, s) ::
                        candidatesOfTools child rest := by
                    simp only [candidatesOfTools, List.filterMap_cons]
                    rw [hobj, hname]
                    simp [hs]
                  cases hdup : sLookup ttc (getChildKey child ++ "__" ++ s) with
                  | none =>
                      have heq : mergeTools child (t :: rest) merged ttc =
                          mergeTools child rest
                            (merged ++ [jSet t "name"
                              (Json.str (getChildKey child ++ "__" ++ s))])
                            (ttc ++ [(getChildKey child ++ "__" ++ s, child, s)]) := by
                        show (if (!(jTruthy t && isTypeofObject t)) = true then _ else _) = _
                        rw [hobj, hname]
                        show (if s ≠ "" then _ else _) = _
                        rw [if_pos hs]
                        show (match sLookup ttc (getChildKey child ++ "__" ++ s) with
                          | none => mergeTools child rest
                              (merged ++ [jSet t "name"
                                (Json.str (getChildKey child ++ "__" ++ s))])
                              (ttc ++ [(getChildKey child ++ "__" ++ s, child, s)])
                          | some v => mergeTools child rest merged ttc) = _
                        rw [hdup]
                      have htobj : ∃ tf, t = Json.obj tf := by
                        cases t with
                        | obj tf => exact ⟨tf, rfl⟩
                        | null => simp [jGetOpt] at hname
                        | bool b => simp [jGetOpt] at hname
                        | num n => simp [jGetOpt] at hname
                        | str s2 => simp [jGetOpt] at hname
                        | arr xs => simp [jGetOpt] at hname
                      obtain ⟨tf, rfl⟩ := htobj
                      have hnames1 : truthyNames
                          (merged ++ [jSet (Json.obj tf) "name"
                            (Json.str (getChildKey child ++ "__" ++ s))]) =
                          ((ttc ++ [(getChildKey child ++ "__" ++ s, child, s)]).map
                            Prod.fst) := by
                        rw [truthyNames_append]
                        have hone : truthyNames [jSet (Json.obj tf) "name"
                            (Json.str (getChildKey child ++ "__" ++ s))] =
                            [getChildKey child ++ "__" ++ s] := by
                          simp [truthyNames, jSet, jGetOpt, jLookup_setOrAppend_self,
                            newName_ne_empty (getChildKey child) s]
                        rw [hone, h1]
                        simp
                      have hnotin : (getChildKey child ++ "__" ++ s) ∉ ttc.map Prod.fst :=
                        (sLookup_none_iff ttc _).mp hdup
                      have hnodup1 : (((ttc ++ [(getChildKey child ++ "__" ++ s, child, s)]).map
                          Prod.fst)).Nodup := by
                        rw [List.map_append]
                        refine List.Nodup.append h2 (List.nodup_singleton _) ?_
                        intro x hx hx2
                        simp at hx2
                        rw [hx2] at hx
                        exact hnotin hx
                      obtain ⟨a1, a2, a3⟩ := ih _ _ hnames1 hnodup1
                      unfold MergeInv
                      rw [heq, hcand]
                      refine ⟨a1, a2, fun n => ?_⟩
                      rw [a3 n]
                      cases hl : sLookup ttc n with
                      | some e =>
                          rw [sLookup_append_some _ _ _ _ hl]
                      | none =>
                          rw [sLookup_append_none _ _ _ hl]
                          by_cases hn : getChildKey child ++ "__" ++ s = n
                          · simp [sLookup, hn]
                          · simp [sLookup, hn]
                  | some e0 =>
                      have heq : mergeTools child (t :: rest) merged ttc =
                          mergeTools child rest merged ttc := by
                        show (if (!(jTruthy t && isTypeofObject t)) = true then _ else _) = _
                        rw [hobj, hname]
                        show (if s ≠ "" then _ else _) = _
                        rw [if_pos hs]
                        show (match sLookup ttc (getChildKey child ++ "__" ++ s) with
                          | none => mergeTools child rest
                              (merged ++ [jSet t "name"
                                (Json.str (getChildKey child ++ "__" ++ s))])
                              (ttc ++ [(getChildKey child ++ "__" ++ s, child, s)])
                          | some v => mergeTools child rest merged ttc) = _
                        rw [hdup]
                      obtain ⟨a1, a2, a3⟩ := ih merged ttc h1 h2
                      unfold MergeInv
                      rw [heq, hcand]
                      refine ⟨a1, a2, fun n => ?_⟩
                      rw [a3 n]
                      cases hl : sLookup ttc n with
                      | some e => rfl
                      | none =>
                          have hn : getChildKey child ++ "__" ++ s ≠ n := by
                            intro he
                            rw [he] at hdup
                            rw [hl] at hdup
                            cases hdup
                          simp [sLookup, hn]
            | null =>
                refine mergeTools_step_pass child t rest merged ttc h1 h2 ?_ ?_ ?_ ih
                · show (if (!(jTruthy t && isTypeofObject t)) = true then _ else _) = _
                  rw [hobj, hname]
                  rfl
                · simp only [candidatesOfTools, List.filterMap_cons]
                  rw [hobj, hname]
                  rfl
                · simp [truthyNames, hname]
            | bool b =>
                refine mergeTools_step_pass child t rest merged ttc h1 h2 ?_ ?_ ?_ ih
                · show (if (!(jTruthy t && isTypeofObject t)) = true then _ else _) = _
                  rw [hobj, hname]
                  rfl
                · simp only [candidatesOfTools, List.filterMap_cons]
                  rw [hobj, hname]
                  rfl
                · simp [truthyNames, hname]
            | num m =>
                refine mergeTools_step_pass child t rest merged ttc h1 h2 ?_ ?_ ?_ ih
                · show (if (!(jTruthy t && isTypeofObject t)) = true then _ else _) = _
                  rw [hobj, hname]
                  rfl
                · simp only [candidatesOfTools, List.filterMap_cons]
                  rw [hobj, hname]
                  rfl
                · simp [truthyNames, hname]
            | arr xs =>
                refine mergeTools_step_pass child t rest merged ttc h1 h2 ?_ ?_ ?_ ih
                · show (if (!(jTruthy t && isTypeofObject t)) = true then _ else _) = _
                  rw [hobj, hname]
                  rfl
                · simp only [candidatesOfTools, List.filterMap_cons]
                  rw [hobj, hname]
                  rfl
                · simp [truthyNames, hname]
            | obj gs =>
                refine mergeTools_step_pass child t rest merged ttc h1 h2 ?_ ?_ ?_ ih
                · show (if (!(jTruthy t && isTypeofObject t)) = true then _ else _) = _
                  rw [hobj, hname]
                  rfl
                · simp only [candidatesOfTools, List.filterMap_cons]
                  rw [hobj, hname]
                  rfl
                · simp [truthyNames, hname]
      · -- non-object tool: skipped entirely
        have hF : (jTruthy t && isTypeofObject t) = false := by
          revert hobj
          cases (jTruthy t && isTypeofObject t) <;> simp
        have heq : mergeTools child (t :: rest) merged ttc =
            mergeTools child rest merged ttc := by
          show (if (!(jTruthy t && isTypeofObject t)) = true then _ else _) = _
          rw [hF]
          rfl
        have hcand : candidatesOfTools child (t :: rest) = candidatesOfTools child rest := by
          simp only [candidatesOfTools, List.filterMap_cons]
          rw [hF]
          rfl
        unfold MergeInv
        rw [heq, hcand]
        exact ih merged ttc h1 h2

/-- Invariant of the outer result loop. -/
theorem mergeResultsGo_inv :
    ∀ (rs : List (Child × Json)) (merged : List Json)
      (ttc : List (String × Child × String)),
    truthyNames merged = ttc.map Prod.fst →
    (ttc.map Prod.fst).Nodup →
    truthyNames (mergeResultsGo rs merged ttc).1 =
        (mergeResultsGo rs merged ttc).2.map Prod.fst ∧
    ((mergeResultsGo rs merged ttc).2.map Prod.fst).Nodup ∧
    ∀ n, sLookup (mergeResultsGo rs merged ttc).2 n =
      (match sLookup ttc n with
       | some e => some e
       | none => sLookup (candidateEntries rs) n) := by
  intro rs
  induction rs with
  | nil =>
      intro merged ttc h1 h2
      refine ⟨h1, h2, fun n => ?_⟩
      show sLookup ttc n = _
      cases sLookup ttc n <;> rfl
  | cons hd rest ih =>
      obtain ⟨c, r⟩ := hd
      intro merged ttc h1 h2
      obtain ⟨a1, a2, a3⟩ := mergeTools_inv c (toolsOfResult r) merged ttc h1 h2
      obtain ⟨b1, b2, b3⟩ :=
        ih (mergeTools c (toolsOfResult r) merged ttc).1
          (mergeTools c (toolsOfResult r) merged ttc).2 a1 a2
      refine ⟨b1, b2, fun n => ?_⟩
      show sLookup (mergeResultsGo ((c, r) :: rest) merged ttc).2 n = _
      have hgo : mergeResultsGo ((c, r) :: rest) merged ttc =
          mergeResultsGo rest (mergeTools c (toolsOfResult r) merged ttc).1
            (mergeTools c (toolsOfResult r) merged ttc).2 := rfl
      rw [hgo, b3 n, a3 n]
      show _ = (match sLookup ttc n with
        | some e => some e
        | none => sLookup (candidatesOfTools c (toolsOfResult r) ++ candidateEntries rest) n)
      cases hl : sLookup ttc n with
      | some e => rfl
      | none =>
          cases hc : sLookup (candidatesOfTools c (toolsOfResult r)) n with
          | some v =>
              rw [sLookup_append_some _ _ _ _ hc]
          | none =>
              rw [sLookup_append_none _ _ _ hc]

/-- The result list of the C6 counterexample: one child advertising two
tools whose `name` is the empty string. -/
def c6results : List (Child × Json) :=
  [(⟨some "a", "ca"⟩, Json.obj [("tools", Json.arr
    [Json.obj [("name", Json.str "")], Json.obj [("name", Json.str "")]])])]

/-- C6 counterexample: a tool whose string name is empty is falsy, so it is
passed through unchanged and recorded nowhere.  Both tools are emitted with
the (identical, unprefixed) name `""` while `toolToChild` stays empty: two
emitted tools share a name field and the set of emitted name fields differs
from the set of `toolToChild` keys. -/
theorem c6_counterexample :
    mergeResults c6results =
      ([Json.obj [("name", Json.str "")], Json.obj [("name", Json.str "")]], []) ∧
    ¬ ((mergeResults c6results).1.filterMap (fun t => jGetOpt t "name")).Nodup ∧
    (mergeResults c6results).1.filterMap (fun t => jGetOpt t "name") ≠
      ((mergeResults c6results).2.map Prod.fst).map Json.str := by
  refine ⟨by decide, by decide, by decide⟩

/-- C6 amended: after any `tools/list` aggregation, among emitted tools the
truthy string names are exactly the keys of `toolToChild`, in order and
without duplicates, and each key maps to the first candidate of the results
stream that published it (first publisher wins); tools without a truthy
string name are emitted unchanged and tracked nowhere. -/
theorem c6_amended (results : List (Child × Json)) :
    truthyNames (mergeResults results).1 = (mergeResults results).2.map Prod.fst ∧
    ((mergeResults results).2.map Prod.fst).Nodup ∧
    ∀ n, sLookup (mergeResults results).2 n = sLookup (candidateEntries results) n := by
  obtain ⟨a, b, c⟩ := mergeResultsGo_inv results [] [] rfl List.nodup_nil
  exact ⟨a, b, fun n => c n⟩

/-- Witness for the amended C3: an unknown-method notification goes only to
the first of the two children, and a (malformed) truthy numeric method with
no id is broadcast to both. -/
theorem c3_amended_witness :
    dispatchParent false c3state c3note =
      (c3state, [Eff.sendChild ⟨some "alpha", "ca"⟩ c3note]) ∧
    dispatchParent false c3state
        (Json.obj [("jsonrpc", Json.str "2.0"), ("method", Json.num 5)]) =
      (c3state, c3state.children.map (fun c =>
        Eff.sendChild c (notifyMsg (Json.num 5) none))) :=
  ⟨c3_amended.1 false c3state
      [("jsonrpc", Json.str "2.0"), ("method", Json.str "notifications/initialized")]
      "notifications/initialized" ⟨some "alpha", "ca"⟩ [⟨some "beta", "cb"⟩]
      (by decide) (by decide) (by decide) (by decide) (by decide) (by decide) rfl,
   c3_amended.2 false c3state [("jsonrpc", Json.str "2.0"), ("method", Json.num 5)]
      (Json.num 5) (by decide) (by decide) (fun s h => Json.noConfusion h)
      (by decide) (by decide)⟩




/-! ## The initialize coercion, staged (claim C9 machinery) -/

/-- `params?.protocolVersion || pver` (the `protoVer` local of the
success path). -/
def protoOf (params : Option Json) (pver : Json) : Json :=
  match (match params with | some p => jGetOpt p "protocolVersion" | none => none) with
  | some v => if jTruthy v then v else pver
  | none => pver

/-- The `serverInfo` tail of the success-path coercion. -/
def initStageServerInfo (r4 : Json) : Option Json :=
  let r5 := if !oTruthy (jGetOpt r4 "serverInfo") then jSet r4 "serverInfo" (.obj []) else r4
  match jGetOpt r5 "serverInfo" with
  | some si =>
      match si with
      | .obj sf => some (jSet r5 "serverInfo" (.obj (setOrAppend sf "name" (Json.str "mcp"))))
      | .arr _ => some r5
      | _ => none
  | none => none

/-- The `capabilities.tools` step of the success-path coercion. -/
def initStageTools (r3 : Json) : Option Json :=
  match jGetOpt r3 "capabilities" with
  | some caps =>
      (match (if !oTruthy (jGetOpt caps "tools") then
            match caps with
            | .obj cf => some (jSet r3 "capabilities"
                (.obj (setOrAppend cf "tools" (.obj [("listChanged", Json.bool false)]))))
            | .arr _ => some r3
            | _ => none
          else some r3) with
       | none => none
       | some r4 => initStageServerInfo r4)
  | none => none

/-- The `capabilities` presence step of the success-path coercion. -/
def initStageCaps (r2 : Json) : Option Json :=
  initStageTools (if !oTruthy (jGetOpt r2 "capabilities") then jSet r2 "capabilities" (.obj []) else r2)

/-- The `protocolVersion` step of the success-path coercion (arrays pass
through before it). -/
def initStagePv (protoVer : Json) (r1 : Json) : Option Json :=
  match r1 with
  | .arr _ => some r1
  | _ => initStageCaps
      (if oNullish (jGetOpt r1 "protocolVersion") then jSet r1 "protocolVersion" protoVer else r1)

theorem coerceInitResult_obj (params : Option Json) (pver : Json) (fs : List (String × Json)) :
    coerceInitResult params pver (Json.obj fs) = initStagePv (protoOf params pver) (Json.obj fs) := rfl

theorem initPver_truthy (params : Option Json) : jTruthy (initPver params) = true := by
  cases params with
  | none => decide
  | some p =>
      cases h : jGetOpt p "protocolVersion" with
      | none => simp [initPver, h]; decide
      | some v =>
          by_cases hv : jTruthy v = true
          · simp [initPver, h, hv]
          · simp [initPver, h, hv]; decide

theorem protoOf_initPver (params : Option Json) :
    protoOf params (initPver params) = initPver params := by
  cases params with
  | none => rfl
  | some p =>
      cases h : jGetOpt p "protocolVersion" with
      | none => simp [protoOf, h]
      | some v =>
          by_cases hv : jTruthy v = true
          · simp [protoOf, initPver, h, hv]
          · simp [protoOf, initPver, h, hv]

theorem oNullish_of_truthy (v : Json) (h : jTruthy v = true) : oNullish (some v) = false := by
  cases v with
  | null => exact absurd h (by decide)
  | bool b => rfl
  | num n => rfl
  | str s => rfl
  | arr xs => rfl
  | obj f => rfl

theorem initStageServerInfo_shape (fs4 : List (String × Json)) (out : Json)
    (hsi : ∀ xs, jLookup fs4 "serverInfo" ≠ some (Json.arr xs))
    (hout : initStageServerInfo (Json.obj fs4) = some out) :
    (∃ sf, jGetOpt out "serverInfo" = some (Json.obj sf) ∧
      jLookup sf "name" = some (Json.str "mcp")) ∧
    ∀ k, k ≠ "serverInfo" → jGetOpt out k = jLookup fs4 k := by
  by_cases hsit : oTruthy (jLookup fs4 "serverInfo") = true
  · obtain ⟨si, hsi0⟩ : ∃ si, jLookup fs4 "serverInfo" = some si := by
      cases h : jLookup fs4 "serverInfo" with
      | none => rw [h] at hsit; exact absurd hsit (by decide)
      | some si => exact ⟨si, rfl⟩
    have hsitr : jTruthy si = true := by rw [hsi0] at hsit; exact hsit
    simp only [initStageServerInfo, jGetOpt, hsi0, oTruthy, hsitr, Bool.not_true,
      Bool.false_eq_true, if_false] at hout
    cases si with
    | obj sf =>
        simp only [jSet, Option.some.injEq] at hout
        subst hout
        refine ⟨⟨setOrAppend sf "name" (Json.str "mcp"), ?_, ?_⟩, ?_⟩
        · simp [jGetOpt, jLookup_setOrAppend_self]
        · exact jLookup_setOrAppend_self sf "name" (Json.str "mcp")
        · intro k hk
          simp [jGetOpt, jLookup_setOrAppend_ne fs4 "serverInfo" k _ hk]
    | arr xs => exact absurd hsi0 (hsi xs)
    | null => exact absurd hsitr (by decide)
    | bool b => cases hout
    | num n => cases hout
    | str s => cases hout
  · have hsif : oTruthy (jLookup fs4 "serverInfo") = false := by
      revert hsit; cases oTruthy (jLookup fs4 "serverInfo") <;> simp
    simp only [initStageServerInfo, jGetOpt, jSet, hsif, Bool.not_false, if_true,
      jLookup_setOrAppend_self, Option.some.injEq] at hout
    subst hout
    refine ⟨⟨setOrAppend [] "name" (Json.str "mcp"), ?_, ?_⟩, ?_⟩
    · simp [jGetOpt, jLookup_setOrAppend_self]
    · exact jLookup_setOrAppend_self [] "name" (Json.str "mcp")
    · intro k hk
      simp [jGetOpt, jLookup_setOrAppend_ne _ "serverInfo" k _ hk,
        jLookup_setOrAppend_ne fs4 "serverInfo" k _ hk]

theorem initStageTools_shape (fs3 : List (String × Json)) (out : Json)
    (hcapsarr : ∀ xs, jLookup fs3 "capabilities" ≠ some (Json.arr xs))
    (hsi : ∀ xs, jLookup fs3 "serverInfo" ≠ some (Json.arr xs))
    (hout : initStageTools (Json.obj fs3) = some out) :
    (∃ cf2, jGetOpt out "capabilities" = some (Json.obj cf2) ∧
      oTruthy (jLookup cf2 "tools") = true) ∧
    (∃ sf, jGetOpt out "serverInfo" = some (Json.obj sf) ∧
      jLookup sf "name" = some (Json.str "mcp")) ∧
    ∀ k, k ≠ "serverInfo" → k ≠ "capabilities" → jGetOpt out k = jLookup fs3 k := by
  cases hc : jLookup fs3 "capabilities" with
  | none => simp [initStageTools, jGetOpt, hc] at hout
  | some caps =>
      cases caps with
      | arr xs => exact absurd hc (hcapsarr xs)
      | null => simp [initStageTools, jGetOpt, hc, oTruthy, jTruthy] at hout
      | bool b =>
          cases b with
          | false => simp [initStageTools, jGetOpt, hc, oTruthy, jTruthy] at hout
          | true => simp [initStageTools, jGetOpt, hc, oTruthy, jTruthy] at hout
      | num n => simp [initStageTools, jGetOpt, hc, oTruthy, jTruthy] at hout
      | str s => simp [initStageTools, jGetOpt, hc, oTruthy, jTruthy] at hout
      | obj cf =>
          by_cases ht : oTruthy (jLookup cf "tools") = true
          · simp only [initStageTools, jGetOpt, hc, ht, Bool.not_true,
              Bool.false_eq_true, if_false] at hout
            obtain ⟨⟨sf, hsf1, hsf2⟩, hpres⟩ := initStageServerInfo_shape fs3 out hsi hout
            refine ⟨⟨cf, ?_, ht⟩, ⟨sf, hsf1, hsf2⟩, ?_⟩
            · rw [hpres "capabilities" (by decide), hc]
            · intro k hk1 _; exact hpres k hk1
          · have ht' : oTruthy (jLookup cf "tools") = false := by
              revert ht; cases oTruthy (jLookup cf "tools") <;> simp
            simp only [initStageTools, jGetOpt, jSet, hc, ht', Bool.not_false, if_true] at hout
            have hsi4 : ∀ xs, jLookup (setOrAppend fs3 "capabilities"
                (Json.obj (setOrAppend cf "tools" (Json.obj [("listChanged", Json.bool false)]))))
                "serverInfo" ≠ some (Json.arr xs) := by
              intro xs
              rw [jLookup_setOrAppend_ne fs3 "capabilities" "serverInfo" _ (by decide)]
              exact hsi xs
            obtain ⟨⟨sf, hsf1, hsf2⟩, hpres⟩ := initStageServerInfo_shape _ out hsi4 hout
            refine ⟨⟨setOrAppend cf "tools" (Json.obj [("listChanged", Json.bool false)]),
              ?_, ?_⟩, ⟨sf, hsf1, hsf2⟩, ?_⟩
            · rw [hpres "capabilities" (by decide)]
              exact jLookup_setOrAppend_self fs3 "capabilities" _
            · rw [jLookup_setOrAppend_self cf "tools" _]
              rfl
            · intro k hk1 hk2
              rw [hpres k hk1]
              exact jLookup_setOrAppend_ne fs3 "capabilities" k _ hk2

theorem initStageCaps_shape (fs2 : List (String × Json)) (out : Json)
    (hcapsarr : ∀ xs, jLookup fs2 "capabilities" ≠ some (Json.arr xs))
    (hsi : ∀ xs, jLookup fs2 "serverInfo" ≠ some (Json.arr xs))
    (hout : initStageCaps (Json.obj fs2) = some out) :
    (∃ cf2, jGetOpt out "capabilities" = some (Json.obj cf2) ∧
      oTruthy (jLookup cf2 "tools") = true) ∧
    (∃ sf, jGetOpt out "serverInfo" = some (Json.obj sf) ∧
      jLookup sf "name" = some (Json.str "mcp")) ∧
    ∀ k, k ≠ "serverInfo" → k ≠ "capabilities" → jGetOpt out k = jLookup fs2 k := by
  by_cases hct : oTruthy (jLookup fs2 "capabilities") = true
  · simp only [initStageCaps, jGetOpt, hct, Bool.not_true, Bool.false_eq_true,
      if_false] at hout
    exact initStageTools_shape fs2 out hcapsarr hsi hout
  · have hct' : oTruthy (jLookup fs2 "capabilities") = false := by
      revert hct; cases oTruthy (jLookup fs2 "capabilities") <;> simp
    simp only [initStageCaps, jGetOpt, jSet, hct', Bool.not_false, if_true] at hout
    have hc3 : jLookup (setOrAppend fs2 "capabilities" (Json.obj [])) "capabilities" =
        some (Json.obj []) := jLookup_setOrAppend_self fs2 "capabilities" _
    have hcapsarr3 : ∀ xs, jLookup (setOrAppend fs2 "capabilities" (Json.obj []))
        "capabilities" ≠ some (Json.arr xs) := by
      intro xs h
      rw [hc3] at h
      cases h
    have hsi3 : ∀ xs, jLookup (setOrAppend fs2 "capabilities" (Json.obj []))
        "serverInfo" ≠ some (Json.arr xs) := by
      intro xs
      rw [jLookup_setOrAppend_ne fs2 "capabilities" "serverInfo" _ (by decide)]
      exact hsi xs
    obtain ⟨hA, hB, hpres⟩ := initStageTools_shape _ out hcapsarr3 hsi3 hout
    refine ⟨hA, hB, ?_⟩
    intro k hk1 hk2
    rw [hpres k hk1 hk2]
    exact jLookup_setOrAppend_ne fs2 "capabilities" k _ hk2

theorem coerceInit_obj (params : Option Json) (fs : List (String × Json)) (out : Json)
    (hcapsarr : ∀ xs, jLookup fs "capabilities" ≠ some (Json.arr xs))
    (hsi : ∀ xs, jLookup fs "serverInfo" ≠ some (Json.arr xs))
    (hout : coerceInitResult params (initPver params) (Json.obj fs) = some out) :
    oNullish (jGetOpt out "protocolVersion") = false ∧
    (∃ cf, jGetOpt out "capabilities" = some (Json.obj cf) ∧
      oTruthy (jLookup cf "tools") = true) ∧
    (∃ sf, jGetOpt out "serverInfo" = some (Json.obj sf) ∧
      jLookup sf "name" = some (Json.str "mcp")) := by
  rw [coerceInitResult_obj, protoOf_initPver] at hout
  by_cases hpv : oNullish (jLookup fs "protocolVersion") = true
  · simp only [initStagePv, jGetOpt, jSet, hpv, if_true] at hout
    have hcapsarr2 : ∀ xs, jLookup (setOrAppend fs "protocolVersion" (initPver params))
        "capabilities" ≠ some (Json.arr xs) := by
      intro xs
      rw [jLookup_setOrAppend_ne fs "protocolVersion" "capabilities" _ (by decide)]
      exact hcapsarr xs
    have hsi2 : ∀ xs, jLookup (setOrAppend fs "protocolVersion" (initPver params))
        "serverInfo" ≠ some (Json.arr xs) := by
      intro xs
      rw [jLookup_setOrAppend_ne fs "protocolVersion" "serverInfo" _ (by decide)]
      exact hsi xs
    obtain ⟨hA, hB, hpres⟩ := initStageCaps_shape _ out hcapsarr2 hsi2 hout
    refine ⟨?_, hA, hB⟩
    rw [hpres "protocolVersion" (by decide) (by decide),
      jLookup_setOrAppend_self fs "protocolVersion" _]
    exact oNullish_of_truthy _ (initPver_truthy params)
  · have hpv' : oNullish (jLookup fs "protocolVersion") = false := by
      revert hpv; cases oNullish (jLookup fs "protocolVersion") <;> simp
    simp only [initStagePv, jGetOpt, hpv', Bool.false_eq_true, if_false] at hout
    obtain ⟨hA, hB, hpres⟩ := initStageCaps_shape fs out hcapsarr hsi hout
    refine ⟨?_, hA, hB⟩
    rw [hpres "protocolVersion" (by decide) (by decide)]
    exact hpv'

theorem dispatchInit_noChildren (pt : Bool) (st : Agg) (msg : Json)
    (h1 : (jTruthy msg && jsonrpcOk msg) = true)
    (h2 : jGetOpt msg "method" = some (Json.str "initialize"))
    (h3 : oNullish (jGetOpt msg "id") = false)
    (h4 : st.children = []) :
    dispatchParent pt st msg =
      ({ st with
          parentIdToCtx := kSet st.parentIdToCtx (jGetOpt msg "id")
            (CallCtx.mk "initialize" (jGetOpt msg "params")) },
       [Eff.reply (okResponse (jGetOpt msg "id")
          (minimalInitializeResult (initPver (jGetOpt msg "params"))))]) := by
  simp [dispatchParent, h1, h2, h3, h4]

def c9outW : Json :=
  Json.obj [("protocolVersion", Json.str "2024-06-13"),
            ("capabilities", Json.obj [("tools", Json.obj [("listChanged", Json.bool false)])]),
            ("serverInfo", Json.obj [("name", Json.str "mcp")])]

/-- C9, counterexample: a child whose `initialize` result is a JSON array is
replied to the parent unchanged — the success reply is written, yet the
serialized result has neither `protocolVersion` nor `serverInfo.name`,
because every coercion assignment lands on unserialized array properties. -/
theorem c9_counterexample :
    initializeSuccessReply (some (Json.num 1)) none (initPver none) (Json.arr []) =
      some (okResponse (some (Json.num 1)) (Json.arr [])) ∧
    jGetOpt (Json.arr []) "protocolVersion" = none ∧
    jGetOpt (Json.arr []) "serverInfo" = none := by
  decide

/-- C9 (amended): with no children, an `initialize` request with an id is
answered immediately with the minimal result built from the requested
protocol version; and whenever the first child result is a JSON object
(whose `capabilities` and `serverInfo` members, if present, are not arrays)
and the coercion returns a result, that result has a non-nullish
`protocolVersion`, an object `capabilities` with a truthy `tools`, and a
`serverInfo.name` of `"mcp"`. -/
theorem c9_amended :
    (∀ (pt : Bool) (st : Agg) (msg : Json),
      (jTruthy msg && jsonrpcOk msg) = true →
      jGetOpt msg "method" = some (Json.str "initialize") →
      oNullish (jGetOpt msg "id") = false →
      st.children = [] →
      dispatchParent pt st msg =
        ({ st with
            parentIdToCtx := kSet st.parentIdToCtx (jGetOpt msg "id")
              (CallCtx.mk "initialize" (jGetOpt msg "params")) },
         [Eff.reply (okResponse (jGetOpt msg "id")
            (minimalInitializeResult (initPver (jGetOpt msg "params"))))])) ∧
    (∀ (params : Option Json) (fs : List (String × Json)) (out : Json),
      (∀ xs, jLookup fs "capabilities" ≠ some (Json.arr xs)) →
      (∀ xs, jLookup fs "serverInfo" ≠ some (Json.arr xs)) →
      coerceInitResult params (initPver params) (Json.obj fs) = some out →
      oNullish (jGetOpt out "protocolVersion") = false ∧
      (∃ cf, jGetOpt out "capabilities" = some (Json.obj cf) ∧
        oTruthy (jLookup cf "tools") = true) ∧
      (∃ sf, jGetOpt out "serverInfo" = some (Json.obj sf) ∧
        jLookup sf "name" = some (Json.str "mcp"))) :=
  ⟨dispatchInit_noChildren, coerceInit_obj⟩

/-- Witness for the amended C9: a no-children state answers a concrete
`initialize` request with the minimal result, and the empty-object child
result is coerced to a result carrying all three guarantees. -/
theorem c9_amended_witness :
    (dispatchParent false (Agg.mk [] [] [] [])
        (Json.obj [("jsonrpc", Json.str "2.0"), ("method", Json.str "initialize"),
          ("id", Json.num 7)]) =
      (Agg.mk [] [] [] [(some (Json.num 7), CallCtx.mk "initialize" none)],
       [Eff.reply (okResponse (some (Json.num 7))
          (minimalInitializeResult (initPver none)))])) ∧
    (oNullish (jGetOpt c9outW "protocolVersion") = false ∧
      (∃ cf, jGetOpt c9outW "capabilities" = some (Json.obj cf) ∧
        oTruthy (jLookup cf "tools") = true) ∧
      (∃ sf, jGetOpt c9outW "serverInfo" = some (Json.obj sf) ∧
        jLookup sf "name" = some (Json.str "mcp"))) :=
  ⟨c9_amended.1 false (Agg.mk [] [] [] [])
      (Json.obj [("jsonrpc", Json.str "2.0"), ("method", Json.str "initialize"),
        ("id", Json.num 7)])
      (by decide) (by decide) (by decide) rfl,
   c9_amended.2 none [] c9outW
      (fun xs h => Option.noConfusion h)
      (fun xs h => Option.noConfusion h)
      (by decide)⟩

/-- C10: the config loader is exactly the concatenation of the five shape
families, in source order, for every document; a concrete config matching
both the `servers` map and the top-level-`command` shape yields both
entries, with the non-string-`command` map entry skipped. -/
theorem c10_config_shapes :
    (∀ cfg : Json, findServersInConfig cfg =
      mapShapeServers cfg "servers" ++ mapShapeServers cfg "mcp_servers" ++
      mapShapeServers cfg "mcpServers" ++ arrayShapeServers cfg ++ singleShapeServers cfg) ∧
    findServersInConfig (Json.obj
        [("servers", Json.obj [("a", Json.obj [("command", Json.str "x")]),
          ("b", Json.obj [("command", Json.num 5)])]),
         ("command", Json.str "y")]) =
      [ServerSpec.mk (some (Json.str "a")) "x" (Json.arr []) (Json.obj []),
       ServerSpec.mk none "y" (Json.arr []) (Json.obj [])] := by
  constructor
  · intro cfg
    cases cfg with
    | null => rfl
    | bool b => cases b <;> rfl
    | num n =>
        have hF : (jTruthy (Json.num n) && isTypeofObject (Json.num n)) = false := by
          simp [isTypeofObject]
        unfold findServersInConfig
        rw [hF]
        rfl
    | str s =>
        have hF : (jTruthy (Json.str s) && isTypeofObject (Json.str s)) = false := by
          simp [isTypeofObject]
        unfold findServersInConfig
        rw [hF]
        rfl
    | arr xs => rfl
    | obj fs => rfl
  · decide


end Mcp
